import Mathlib

/-!
Provisioning control plane of the database appliances.

A shallow embedding of the coordination logic of

* `appliance/mariadb/cmd/flynn-mariadb-api/main.go`
* `appliance/mongodb/cmd/flynn-mongodb-api/main.go`
* `appliance/postgresql/cmd/flynn-postgres-api/main.go`
* `cli/resource.go`

External collaborators (the scale orchestrator, the SQL driver, the mgo
session, the sirenia client, the controller client) are parameters of the
embedded functions: the outcome of each of their calls is given from outside,
for the stores as a function of the calls made so far. Every embedded function
returns, next to its Go results, the log of the collaborator calls it made.
-/

namespace Flynn

/-! ## Errors -/

/-- A Go `error` value: one built in these files with `fmt.Errorf`, or one
handed back by a collaborator. A nil error is `none : Option Error`. -/
inductive Error where
  | errorf (format : String) (args : List String)
  | external (msg : String)
deriving DecidableEq, Repr

/-! ## The Scale Gate (`API.scaleUp`) -/

/-- The process-wide state of `type API struct { mtx sync.Mutex; scaledUp bool }`,
together with the number of `scale.ScaleUp` invocations made so far (a ghost
counter that is not part of the Go struct). -/
structure API where
  scaledUp : Bool
  invocations : Nat
deriving DecidableEq, Repr

/-- The orchestrator `scale.ScaleUp`: the outcome of its `n`-th invocation
(counting from 0), `none` being a nil error. -/
abbrev Orchestrator := Nat → Option Error

/-- The state of a freshly started process: `&API{}`. -/
def API.init : API := { scaledUp := false, invocations := 0 }

/-- Embedding of `func (a *API) scaleUp() error`, identical in the mariadb and
mongodb providers up to the address and name passed through to the
orchestrator. The body runs under `a.mtx`, so one call is one atomic step. -/
def API.scaleUp (orch : Orchestrator) (a : API) : API × Option Error :=
  -- Ignore if already scaled up.
  if a.scaledUp then
    (a, none)
  else
    match orch a.invocations with
    | some err => ({ a with invocations := a.invocations + 1 }, some err)
    | none =>
      -- Mark as successfully scaled up.
      ({ scaledUp := true, invocations := a.invocations + 1 }, none)

/-- A finite sequence of `n` sequential `scaleUp` calls. -/
def API.scaleUpTimes (orch : Orchestrator) : Nat → API → API
  | 0, a => a
  | n + 1, a => API.scaleUpTimes orch n (API.scaleUp orch a).1

/-- Whether the call with index `i` (counting from 0) of a sequence started in
state `a` invokes the orchestrator: the invocation counter moves across it. -/
def API.callInvokes (orch : Orchestrator) (a : API) (i : Nat) : Bool :=
  let before := API.scaleUpTimes orch i a
  decide ((API.scaleUp orch before).1.invocations = before.invocations + 1)

/-- Whether the call with index `i` invokes the orchestrator and that invocation
returns a nil error. -/
def API.callSucceeds (orch : Orchestrator) (a : API) (i : Nat) : Bool :=
  API.callInvokes orch a i && decide (orch (API.scaleUpTimes orch i a).invocations = none)


/-! ## The Go `strings` functions used by the id and tunable parsers

A Go string is a sequence of bytes; it is embedded as a Lean `String` and the
functions work on its list of characters. The separators used by the sources
(":" and "=") are one ASCII byte, which never occurs inside a longer UTF-8
sequence, so cutting at the character and cutting at the byte agree. They are
passed as a `Char`. -/

/-- Go `strings.HasPrefix(s, prefix)` on character lists. -/
def HasPrefix (s pre : List Char) : Bool :=
  decide (s.take pre.length = pre)

/-- Go `strings.TrimPrefix(s, prefix)`: `s` without the leading `prefix`, or
`s` itself when it does not start with `prefix`. -/
def TrimPrefix (s pre : String) : String :=
  if HasPrefix s.data pre.data then String.mk (s.data.drop pre.data.length) else s

/-- Go `strings.Index(s, sep)` for a one-byte separator: the position of the
first occurrence, `none` standing for -1. -/
def Index : List Char → Char → Option Nat
  | [], _ => none
  | c :: cs, sep => if c = sep then some 0 else (Index cs sep).map (· + 1)

/-- The loop of Go `strings.genSplit` with `sepSave = 0`: `fuel` is `n - 1 - i`,
the number of cuts still allowed. -/
def genSplitLoop (sep : Char) : Nat → List Char → List (List Char)
  | 0, s => [s]
  | fuel + 1, s =>
    match Index s sep with
    | none => [s]
    | some m => s.take m :: genSplitLoop sep fuel (s.drop (m + 1))

/-- Go `strings.SplitN(s, sep, n)` for a one-byte separator and `n ≥ 0`:
at most `n` substrings, the last one being the unsplit remainder; `n = 0`
gives the nil slice. -/
def SplitN (s : String) (sep : Char) (n : Nat) : List String :=
  if n = 0 then [] else (genSplitLoop sep (n - 1) s.data).map String.mk

/-- One lowercase hexadecimal digit, the alphabet of `random.Hex`
(`hex.EncodeToString`). -/
def isHexDigit (c : Char) : Bool :=
  ('0' ≤ c && c ≤ '9') || ('a' ≤ c && c ≤ 'f')

/-- A non-empty string of hexadecimal digits, such as `random.Hex(16)` returns. -/
def isHex (s : String) : Prop :=
  s.data ≠ [] ∧ ∀ c ∈ s.data, isHexDigit c = true

/-- The id that every provider's `Provision` returns:
`fmt.Sprintf("/databases/%s:%s", username, database)`. -/
def provisionId (username database : String) : String :=
  "/databases/" ++ username ++ ":" ++ database

/-- The parser at the head of every provider's `Deprovision`:
`strings.SplitN(strings.TrimPrefix(req.Id, "/databases/"), ":", 2)`. -/
def splitId (reqId : String) : List String :=
  SplitN (TrimPrefix reqId "/databases/") ':' 2

/-- The error of `fmt.Errorf("id is invalid")`. -/
def errIdInvalid : Error := Error.errorf "id is invalid" []

/-- The well-formedness of an id in the words of the spec: with the
"/databases/" prefix removed it is `principal ++ ":" ++ schema` with both
segments non-empty. -/
def specTwoNonEmptySegments (reqId : String) : Prop :=
  ∃ principal schema : String, principal ≠ "" ∧ schema ≠ "" ∧
    TrimPrefix reqId "/databases/" = principal ++ ":" ++ schema

/-- The form of id that the guard of `Deprovision` lets through: with the
"/databases/" prefix removed it is `principal ++ ":" ++ schema` with a
non-empty schema; the principal may be empty. -/
def hasSchemaSegment (reqId : String) : Prop :=
  ∃ principal schema : String, schema ≠ "" ∧
    TrimPrefix reqId "/databases/" = principal ++ ":" ++ schema


/-! ## The leader store -/

/-- One call of `db.Exec(query, args...)`: the statement text and its
placeholder arguments. -/
structure Stmt where
  query : String
  args : List String
deriving DecidableEq, Repr

/-- A store behaviour: the error (`none` for nil) with which the store answers
a statement, given the statements it has been sent so far. -/
abbrev Store := List Stmt → Stmt → Option Error

/-- Embedding of `db.Exec`: the statement is appended to the log of the
statements sent to the store and the store decides the outcome. -/
def Exec (store : Store) (log : List Stmt) (query : String) (args : List String) :
    List Stmt × Option Error :=
  (log ++ [⟨query, args⟩], store log ⟨query, args⟩)

/-- Go `provider.ProvisionReply`. -/
structure ProvisionReply where
  Id : String
  Env : List (String × String)
deriving DecidableEq, Repr

/-- Go `provider.DeprovisionReply`, a message without fields used here. -/
structure DeprovisionReply where
deriving DecidableEq, Repr

/-- What a `Provision` call leaves behind: its two Go results and the log of the
statements sent to the store. -/
structure ProvisionCall where
  reply : Option ProvisionReply
  err : Option Error
  log : List Stmt
deriving DecidableEq, Repr

/-- What a `Deprovision` call of an SQL provider leaves behind. -/
structure DeprovisionCall where
  reply : DeprovisionReply
  err : Option Error
  log : List Stmt
deriving DecidableEq, Repr

/-! ## Tunables -/

/-- Modelled from the spec: the declaration of `state.Tunables` is not among the
sources; the spec gives the Tunables Blob as `{data: mapping of string to
string, version: monotonically increasing integer}`. -/
structure Tunables where
  Data : List (String × String)
  Version : Nat
deriving DecidableEq, Repr

/-- Modelled from the spec: the declaration of `provider.UpdateTunablesRequest`
is not among the sources; its `Tunables` and `Version` fields are assigned to
the fields of `state.Tunables` without conversion. -/
structure UpdateTunablesRequest where
  Tunables : List (String × String)
  Version : Nat
deriving DecidableEq, Repr

/-- Go `provider.UpdateTunablesReply`, a message without fields used here. -/
structure UpdateTunablesReply where
deriving DecidableEq, Repr

/-- The tunables store client `sirenia.NewClient(addr).UpdateTunables(update)`:
its answer to an update sent to `addr`, given the updates submitted so far. -/
abbrev TunablesClient := List (String × Tunables) → String → Tunables → Option Error

/-- What an `UpdateTunables` call leaves behind: its two Go results and the log
of the updates submitted to the tunables store client. -/
structure UpdateTunablesCall where
  reply : UpdateTunablesReply
  err : Option Error
  submitted : List (String × Tunables)
deriving DecidableEq, Repr

/-- The body shared by the three `UpdateTunables` methods, which differ in the
port of the address only. -/
def updateTunables (port : String) (singleton serviceHost : String) (sc : TunablesClient)
    (submitted : List (String × Tunables)) (req : UpdateTunablesRequest) : UpdateTunablesCall :=
  if singleton = "true" then
    ⟨{}, some (Error.errorf "Tunables can't be updated on singleton clusters" []), submitted⟩
  else
    let update : Tunables := { Data := req.Tunables, Version := req.Version }
    let addr := serviceHost ++ port
    ⟨{}, sc submitted addr update, submitted ++ [(addr, update)]⟩

/-! ## Health -/

/-- The `Status` enum of `status.StatusReply`. -/
inductive StatusReply_Status where
  | HEALTHY
  | UNHEALTHY
deriving DecidableEq, Repr

/-- Modelled from the spec: the declaration of `status.StatusReply` is not among
the sources; the spec gives `Status() -> {state: HEALTHY|UNHEALTHY}`, and the
reply `&status.StatusReply{}` that the code returns on success carries the zero
value of the enum, which is `HEALTHY`. -/
structure StatusReply where
  Status : StatusReply_Status := StatusReply_Status.HEALTHY
deriving DecidableEq, Repr

/-- The `Database` part of the leader status that `sirenia` reports. -/
structure DatabaseInfo where
  ReadWrite : Bool
deriving DecidableEq, Repr

/-- The leader status `ss` of `sirenia.NewClient(addr).Status()`; a nil
`ss.Database` is `none`. -/
structure LeaderStatus where
  Database : Option DatabaseInfo
deriving DecidableEq, Repr

/-- The collaborator calls a `Status` check can make. -/
inductive StatusEvent where
  | leaderStatus
  | checkScale
  | connect
  | exec (q : Stmt)
deriving DecidableEq, Repr

/-- What a `Status` call leaves behind: its two Go results and the log of the
collaborator calls it made. -/
structure StatusCall where
  reply : StatusReply
  err : Option Error
  events : List StatusEvent
deriving DecidableEq, Repr

/-- The leader status read succeeded and reports the data path as read-write:
`err == nil && ss.Database != nil && ss.Database.ReadWrite`. -/
def reportsReadWrite (leader : Except Error LeaderStatus) : Prop :=
  ∃ ss d, leader = .ok ss ∧ ss.Database = some d ∧ d.ReadWrite = true

/-- The outcome of the liveness step in the words of the spec: a connect or
execute failure gives UNHEALTHY with the underlying error (and after a connect
failure nothing is executed), success gives HEALTHY with no error. -/
def specLiveness (connect : Option Error) (exec : Stmt → Option Error) (r : StatusCall) : Prop :=
  StatusEvent.connect ∈ r.events ∧
  (∀ e, connect = some e →
    r.reply.Status = .UNHEALTHY ∧ r.err = some e ∧ ∀ q, StatusEvent.exec q ∉ r.events) ∧
  (connect = none → StatusEvent.exec ⟨"SELECT 1", []⟩ ∈ r.events) ∧
  (connect = none → ∀ e, exec ⟨"SELECT 1", []⟩ = some e →
    r.reply.Status = .UNHEALTHY ∧ r.err = some e) ∧
  (connect = none → exec ⟨"SELECT 1", []⟩ = none →
    r.reply.Status = .HEALTHY ∧ r.err = none)


/-! ## The mariadb provider -/

namespace mariadb

/-- The statement of `fmt.Sprintf("CREATE USER '%s'@'%%' IDENTIFIED BY '%s'", username, password)`. -/
def sqlCreateUser (username password : String) : String :=
  "CREATE USER '" ++ username ++ "'@'%' IDENTIFIED BY '" ++ password ++ "'"

/-- The statement of `fmt.Sprintf` with the format "CREATE DATABASE" followed by
the back-quoted `%s`. -/
def sqlCreateDatabase (database : String) : String :=
  "CREATE DATABASE `" ++ database ++ "`"

/-- The statement of `fmt.Sprintf` with the format "GRANT ALL ON" followed by the
back-quoted `%s`, then ".* TO '%s'@'%%'". -/
def sqlGrant (database username : String) : String :=
  "GRANT ALL ON `" ++ database ++ "`.* TO '" ++ username ++ "'@'%'"

/-- The statement of `fmt.Sprintf` with the format "DROP DATABASE" followed by
the back-quoted `%s`. -/
def sqlDropDatabase (database : String) : String :=
  "DROP DATABASE `" ++ database ++ "`"

/-- The statement of `fmt.Sprintf("DROP USER '%s'", username)`. -/
def sqlDropUser (username : String) : String :=
  "DROP USER '" ++ username ++ "'"

/-- Embedding of `func (a *API) Provision`. `connect` is the error of
`a.connect()`; `username`, `password` and `database` are the three values of
`random.Hex(16)`. The deferred `db.Close()` sends no statement and is left out. -/
def API.Provision (orch : Orchestrator) (connect : Option Error) (store : Store)
    (serviceName serviceHost username password database : String)
    (a : API) (log : List Stmt) : API × ProvisionCall :=
  -- Ensure the cluster has been scaled up before attempting to create a database.
  match Flynn.API.scaleUp orch a with
  | (a1, some err) => (a1, ⟨none, some err, log⟩)
  | (a1, none) =>
    match connect with
    | some err => (a1, ⟨none, some err, log⟩)
    | none =>
      match Exec store log (sqlCreateUser username password) [] with
      | (log1, some err) => (a1, ⟨none, some err, log1⟩)
      | (log1, none) =>
        match Exec store log1 (sqlCreateDatabase database) [] with
        | (log2, some err) =>
          let (log3, _) := Exec store log2 (sqlDropUser username) []
          (a1, ⟨none, some err, log3⟩)
        | (log2, none) =>
          match Exec store log2 (sqlGrant database username) [] with
          | (log3, some err) =>
            let (log4, _) := Exec store log3 (sqlDropDatabase database) []
            let (log5, _) := Exec store log4 (sqlDropUser username) []
            (a1, ⟨none, some err, log5⟩)
          | (log3, none) =>
            let url := "mysql://" ++ username ++ ":" ++ password ++ "@" ++ serviceHost
              ++ ":3306/" ++ database
            (a1, ⟨some {
                Id := provisionId username database
                Env := [("FLYNN_MYSQL", serviceName), ("MYSQL_HOST", serviceHost),
                  ("MYSQL_USER", username), ("MYSQL_PWD", password),
                  ("MYSQL_DATABASE", database), ("DATABASE_URL", url)] },
              none, log3⟩)

/-- Embedding of `func (a *API) Deprovision`. `connect` is the error of
`a.connect()`. -/
def API.Deprovision (connect : Option Error) (store : Store) (log : List Stmt)
    (reqId : String) : DeprovisionCall :=
  match splitId reqId with
  | [user, database] =>
    if database = "" then
      ⟨{}, some errIdInvalid, log⟩
    else
      match connect with
      | some err => ⟨{}, some err, log⟩
      | none =>
        match Exec store log (sqlDropDatabase database) [] with
        | (log1, some err) => ⟨{}, some err, log1⟩
        | (log1, none) =>
          match Exec store log1 (sqlDropUser user) [] with
          | (log2, some err) => ⟨{}, some err, log2⟩
          | (log2, none) => ⟨{}, none, log2⟩
  | _ => ⟨{}, some errIdInvalid, log⟩

/-- Embedding of `func (a *API) UpdateTunables`. -/
def API.UpdateTunables (singleton serviceHost : String) (sc : TunablesClient)
    (submitted : List (String × Tunables)) (req : UpdateTunablesRequest) : UpdateTunablesCall :=
  updateTunables ":3306" singleton serviceHost sc submitted req

/-- Embedding of `func (a *API) Status`. The collaborators are the leader status
read `sirenia.NewClient(addr).Status()`, the scale check `scale.CheckScale`
with its two results, `a.connect()` and `db.Exec`. The deferred `db.Close()`
is left out. -/
def API.Status (leader : Except Error LeaderStatus) (checkScale : Bool × Option Error)
    (connect : Option Error) (exec : Stmt → Option Error) : StatusCall :=
  let liveness (events : List StatusEvent) : StatusCall :=
    match connect with
    | some err =>
      ⟨{ Status := .UNHEALTHY }, some err, events ++ [.connect]⟩
    | none =>
      match exec ⟨"SELECT 1", []⟩ with
      | some err =>
        ⟨{ Status := .UNHEALTHY }, some err, events ++ [.connect, .exec ⟨"SELECT 1", []⟩]⟩
      | none => ⟨{}, none, events ++ [.connect, .exec ⟨"SELECT 1", []⟩]⟩
  let readWrite : Bool :=
    match leader with
    | .ok ss =>
      (match ss.Database with
       | some d => d.ReadWrite
       | none => false)
    | .error _ => false
  if readWrite then
    -- database is up, skipping scale check
    liveness [.leaderStatus]
  else
    match checkScale with
    | (_, some err) => ⟨{ Status := .UNHEALTHY }, some err, [.leaderStatus, .checkScale]⟩
    | (scaled, none) =>
      -- Cluster has yet to be scaled, return healthy
      if !scaled then
        ⟨{}, none, [.leaderStatus, .checkScale]⟩
      else
        liveness [.leaderStatus, .checkScale]

end mariadb

/-! ## The postgres provider -/

namespace postgres

/-- The constant `disallowConns`. -/
def disallowConns : String :=
  "UPDATE pg_database SET datallowconn = FALSE WHERE datname = $1"

/-- The constant `disconnectConns`. -/
def disconnectConns : String :=
  "\nSELECT pg_terminate_backend(pg_stat_activity.pid)\nFROM pg_stat_activity\nWHERE pg_stat_activity.datname = $1\n  AND pid <> pg_backend_pid();"

/-- The statement of `fmt.Sprintf` with the format `CREATE USER "%s" WITH PASSWORD '%s'`. -/
def sqlCreateUser (username password : String) : String :=
  "CREATE USER \"" ++ username ++ "\" WITH PASSWORD '" ++ password ++ "'"

/-- The statement of `fmt.Sprintf` with the format `CREATE DATABASE "%s"`. -/
def sqlCreateDatabase (database : String) : String :=
  "CREATE DATABASE \"" ++ database ++ "\""

/-- The statement of `fmt.Sprintf` with the format `GRANT ALL ON DATABASE "%s" TO "%s"`. -/
def sqlGrant (database username : String) : String :=
  "GRANT ALL ON DATABASE \"" ++ database ++ "\" TO \"" ++ username ++ "\""

/-- The statement of `fmt.Sprintf` with the format `DROP DATABASE "%s"`. -/
def sqlDropDatabase (database : String) : String :=
  "DROP DATABASE \"" ++ database ++ "\""

/-- The statement of `fmt.Sprintf` with the format `DROP USER "%s"`. -/
def sqlDropUser (username : String) : String :=
  "DROP USER \"" ++ username ++ "\""

/-- Embedding of `func (p *server) Provision`; `username`, `password` and
`database` are the three values of `random.Hex(16)`. -/
def server.Provision (store : Store) (serviceName serviceHost username password database : String)
    (log : List Stmt) : ProvisionCall :=
  match Exec store log (sqlCreateUser username password) [] with
  | (log1, some err) => ⟨none, some err, log1⟩
  | (log1, none) =>
    match Exec store log1 (sqlCreateDatabase database) [] with
    | (log2, some err) =>
      let (log3, _) := Exec store log2 (sqlDropUser username) []
      ⟨none, some err, log3⟩
    | (log2, none) =>
      match Exec store log2 (sqlGrant database username) [] with
      | (log3, some err) =>
        let (log4, _) := Exec store log3 (sqlDropDatabase database) []
        let (log5, _) := Exec store log4 (sqlDropUser username) []
        ⟨none, some err, log5⟩
      | (log3, none) =>
        let url := "postgres://" ++ username ++ ":" ++ password ++ "@" ++ serviceHost
          ++ ":5432/" ++ database
        ⟨some {
            Id := provisionId username database
            Env := [("FLYNN_POSTGRES", serviceName), ("PGHOST", serviceHost),
              ("PGUSER", username), ("PGPASSWORD", password),
              ("PGDATABASE", database), ("DATABASE_URL", url)] },
          none, log3⟩

/-- Embedding of `func (p *server) Deprovision`. -/
def server.Deprovision (store : Store) (log : List Stmt) (reqId : String) : DeprovisionCall :=
  match splitId reqId with
  | [user, database] =>
    if database = "" then
      ⟨{}, some errIdInvalid, log⟩
    else
      -- disable new connections to the target database
      match Exec store log disallowConns [database] with
      | (log1, some err) => ⟨{}, some err, log1⟩
      | (log1, none) =>
        -- terminate current connections
        match Exec store log1 disconnectConns [database] with
        | (log2, some err) => ⟨{}, some err, log2⟩
        | (log2, none) =>
          match Exec store log2 (sqlDropDatabase database) [] with
          | (log3, some err) => ⟨{}, some err, log3⟩
          | (log3, none) =>
            match Exec store log3 (sqlDropUser user) [] with
            | (log4, some err) => ⟨{}, some err, log4⟩
            | (log4, none) => ⟨{}, none, log4⟩
  | _ => ⟨{}, some errIdInvalid, log⟩

/-- Embedding of `func (p *server) UpdateTunables`. -/
def server.UpdateTunables (singleton serviceHost : String) (sc : TunablesClient)
    (submitted : List (String × Tunables)) (req : UpdateTunablesRequest) : UpdateTunablesCall :=
  updateTunables ":5432" singleton serviceHost sc submitted req

end postgres

/-! ## The mongodb provider -/

namespace mongodb

/-- A command document handed to `session.DB(db).Run`: `createUser` with the
`dbOwner` role on `db`, `bson.D{{"dropUser", user}}` and
`bson.D{{"dropDatabase", 1}}`. -/
inductive Command where
  | createUser (db user pwd : String)
  | dropUser (db user : String)
  | dropDatabase (db : String)
deriving DecidableEq, Repr

/-- A behaviour of the mongodb leader: the error with which it answers a
command, given the commands run so far. -/
abbrev Server := List Command → Command → Option Error

/-- Embedding of `session.DB(db).Run(cmd, nil)`. -/
def Run (server : Server) (log : List Command) (cmd : Command) : List Command × Option Error :=
  (log ++ [cmd], server log cmd)

/-- What a `Deprovision` call of the mongodb provider leaves behind. -/
structure DeprovisionCall where
  reply : DeprovisionReply
  err : Option Error
  log : List Command
deriving DecidableEq, Repr

/-- Embedding of `func (a *API) Deprovision`. `dial` is the error of
`mgo.DialWithInfo`. The deferred `session.Close()` runs no command and is
left out. -/
def API.Deprovision (dial : Option Error) (server : Server) (log : List Command)
    (reqId : String) : DeprovisionCall :=
  match splitId reqId with
  | [user, database] =>
    if database = "" then
      ⟨{}, some errIdInvalid, log⟩
    else
      match dial with
      | some err => ⟨{}, some err, log⟩
      | none =>
        -- Delete user.
        match Run server log (.dropUser database user) with
        | (log1, some err) => ⟨{}, some err, log1⟩
        | (log1, none) =>
          -- Delete database.
          match Run server log1 (.dropDatabase database) with
          | (log2, some err) => ⟨{}, some err, log2⟩
          | (log2, none) => ⟨{}, none, log2⟩
  | _ => ⟨{}, some errIdInvalid, log⟩

/-- Embedding of `func (a *API) UpdateTunables`. -/
def API.UpdateTunables (singleton serviceHost : String) (sc : TunablesClient)
    (submitted : List (String × Tunables)) (req : UpdateTunablesRequest) : UpdateTunablesCall :=
  updateTunables ":27017" singleton serviceHost sc submitted req

end mongodb

/-! ## The command line client (`cli/resource.go`) -/

namespace cli

/-- A Go `map[string]V` as an association list with distinct keys, newest entry
first. -/
abbrev GoMap (V : Type) := List (String × V)

/-- The map read `v, ok := m[k]`; `none` when `ok` is false. -/
def GoMap.get {V : Type} (m : GoMap V) (k : String) : Option V :=
  match m with
  | [] => none
  | (k', v) :: rest => if k' = k then some v else GoMap.get rest k

/-- The builtin `delete(m, k)`. -/
def GoMap.delete {V : Type} (m : GoMap V) (k : String) : GoMap V :=
  m.filter (fun e => decide (e.1 ≠ k))

/-- The map write `m[k] = v`. -/
def GoMap.set {V : Type} (m : GoMap V) (k : String) (v : V) : GoMap V :=
  (k, v) :: GoMap.delete m k

/-- Modelled from the spec: the declaration of the tunables type that
`client.GetResourceTunables` returns is not among the sources; the spec gives
the Tunables Blob as `{data: mapping of string to string, version:
monotonically increasing integer}`. `Data` is a Go map, whose zero value is the
nil map (`none`): nothing in the writers allocates it. `Version` is a Go
integer of a type declared outside the sources; the writers take the
wrap-around of that type as their parameter `wrap`. -/
structure ResourceTunables where
  Data : Option (GoMap String)
  Version : Int
deriving DecidableEq, Repr

/-- The map read `v, ok := m[k]` of a map that may be nil: a nil map reads as
the empty map. -/
def readData (data : Option (GoMap String)) (k : String) : Option String :=
  match data with
  | none => none
  | some m => GoMap.get m k

/-- The controller client's `UpdateResourceTunables(provider, resource,
tunables)`: its answer, given the updates submitted so far. -/
abbrev UpdateClient :=
  List (String × String × ResourceTunables) → String → String → ResourceTunables → Option Error

/-- How a call of a tunables writer ends: it returns its error (`none` for nil),
or the Go runtime panics with a message. -/
inductive WriterResult where
  | returned (err : Option Error)
  | panicked (msg : String)
deriving DecidableEq, Repr

/-- What a tunables writer leaves behind: how it ended and the log of the
updates submitted to the controller. -/
structure WriterCall where
  result : WriterResult
  submitted : List (String × String × ResourceTunables)
deriving DecidableEq, Repr

/-- The first loop of `runResourceTunablesSet`: every pair is cut at its first
"=" and stored in `newTunables`, a `map[string]*string` (a nil pointer is
`none`); a pair without "=" ends the command with an error. -/
def parsePairs : List String → GoMap (Option String) → Except Error (GoMap (Option String))
  | [], newTunables => .ok newTunables
  | s :: pairs, newTunables =>
    match SplitN s '=' 2 with
    | [k, v] => parsePairs pairs (GoMap.set newTunables k (some v))
    | _ => .error (Error.errorf "invalid tunable format: %q" [s])

/-- The second loop of `runResourceTunablesSet`, over the entries of
`newTunables` in the order in which `range` yields them. `delete` on a nil map
does nothing; the write `tunables.Data[k] = *v` on a nil map is the runtime
panic "assignment to entry in nil map", which ends the loop and the command. -/
def applyTunables : Option (GoMap String) → List (String × Option String) →
    Except String (Option (GoMap String))
  | data, [] => .ok data
  | data, (k, v) :: rest =>
    match v with
    | none => applyTunables (data.map (fun m => GoMap.delete m k)) rest
    | some x =>
      match data with
      | none => .error "assignment to entry in nil map"
      | some m => applyTunables (some (GoMap.set m k x)) rest

/-- Embedding of `runResourceTunablesSet`. `fetched` is the result of
`client.GetResourceTunables(provider, resource)`, `pairs` the arguments
`<var>=<val>...`, `rangeOrder` the order in which `range newTunables` yields
the entries of the map, which Go leaves unspecified, and `wrap` the wrap-around
of the integer type of `Version`. -/
def runResourceTunablesSet (wrap : Int → Int) (fetched : Except Error ResourceTunables)
    (update : UpdateClient)
    (rangeOrder : List (String × Option String) → List (String × Option String))
    (submitted : List (String × String × ResourceTunables))
    (provider resource : String) (pairs : List String) : WriterCall :=
  match fetched with
  | .error err => ⟨.returned (some err), submitted⟩
  | .ok tunables =>
    match parsePairs pairs [] with
    | .error err => ⟨.returned (some err), submitted⟩
    | .ok newTunables =>
      match applyTunables tunables.Data (rangeOrder newTunables) with
      | .error msg => ⟨.panicked msg, submitted⟩
      | .ok data =>
        -- Bump version
        let tunables1 : ResourceTunables :=
          { Data := data, Version := wrap (tunables.Version + 1) }
        ⟨.returned (update submitted provider resource tunables1),
          submitted ++ [(provider, resource, tunables1)]⟩

/-- Embedding of `runResourceTunablesUnset`; `vars` are the arguments `<var>...`
and `wrap` the wrap-around of the integer type of `Version`. `delete` on a nil
map does nothing. -/
def runResourceTunablesUnset (wrap : Int → Int) (fetched : Except Error ResourceTunables)
    (update : UpdateClient) (submitted : List (String × String × ResourceTunables))
    (provider resource : String) (vars : List String) : WriterCall :=
  match fetched with
  | .error err => ⟨.returned (some err), submitted⟩
  | .ok tunables =>
    let data := vars.foldl (fun d s => d.map (fun m => GoMap.delete m s)) tunables.Data
    -- Bump version
    let tunables1 : ResourceTunables :=
      { Data := data, Version := wrap (tunables.Version + 1) }
    ⟨.returned (update submitted provider resource tunables1),
      submitted ++ [(provider, resource, tunables1)]⟩

/-- The key of a pair in the words of the claim: the text before the first "=". -/
def specKey (s : String) : String :=
  String.mk (s.data.takeWhile (fun c => decide (c ≠ '=')))

/-- The value of a pair in the words of the claim: the text after the first "=". -/
def specValue (s : String) : String :=
  String.mk ((s.data.dropWhile (fun c => decide (c ≠ '='))).drop 1)

/-- The value that the pairs give to the key `x`, the last pair winning for a
repeated key; `none` when no pair names `x`. -/
def specLastValue : List String → String → Option String
  | [], _ => none
  | s :: pairs, x =>
    match specLastValue pairs x with
    | some v => some v
    | none => if specKey s = x then some (specValue s) else none


/-- The map read `m[k]` with one result: the zero value "" when the key is
missing. -/
def GoMap.index (m : GoMap String) (k : String) : String :=
  (GoMap.get m k).getD ""

/-- The fields of `ct.Resource` that `runResourceRemove` uses: `res.ID` and the
`map[string]string` `res.Env`. -/
structure Resource where
  ID : String
  Env : GoMap String
deriving DecidableEq, Repr

/-- The field of `ct.Release` that `runResourceRemove` uses: the
`map[string]string` `release.Env`. -/
structure Release where
  Env : GoMap String
deriving DecidableEq, Repr

/-- What `runResourceRemove` leaves behind: its Go result and the log of the
maps handed to `setEnv`; a nil pointer in such a map, which asks for the key to
be unset, is `none`. -/
structure RemoveCall where
  err : Option Error
  setEnvCalls : List (GoMap (Option String))
deriving DecidableEq, Repr

/-- The loop of `runResourceRemove` over the keys of `res.Env`, in the order in
which `range` yields them: `env[k] = nil` when `release.Env[k] == res.Env[k]`. -/
def unsetLoop (resEnv releaseEnv : GoMap String) :
    List (String × String) → GoMap (Option String) → GoMap (Option String)
  | [], env => env
  | (k, _) :: rest, env =>
    -- Only unset the key if it hasn't been modified
    if GoMap.index releaseEnv k = GoMap.index resEnv k then
      unsetLoop resEnv releaseEnv rest (GoMap.set env k none)
    else
      unsetLoop resEnv releaseEnv rest env

/-- Embedding of `runResourceRemove`. `deleted` is the result of
`client.DeleteResource(provider, resource)`, `release` the result of
`client.GetAppRelease(mustApp())`, `setEnv` the result of `setEnv(client, "",
env)` for a given map, and `rangeOrder` the order in which `range res.Env`
yields the entries of the map, which Go leaves unspecified. -/
def runResourceRemove (deleted : Except Error Resource) (release : Except Error Release)
    (setEnv : GoMap (Option String) → Except Error String)
    (rangeOrder : List (String × String) → List (String × String)) : RemoveCall :=
  match deleted with
  | .error err => ⟨some err, []⟩
  | .ok res =>
    match release with
    | .error err => ⟨some err, []⟩
    | .ok release =>
      -- Unset all the keys associated with this resource
      let env := unsetLoop res.Env release.Env (rangeOrder res.Env) []
      match setEnv env with
      | .error err => ⟨some err, [env]⟩
      | .ok _ => ⟨none, [env]⟩

/-- The keys that the claim expects to be unset: `k` is a key of the resource
env and the release env holds `k` with the same value. -/
def specUnmodified (resEnv releaseEnv : GoMap String) (k : String) : Prop :=
  ∃ v, GoMap.get resEnv k = some v ∧ GoMap.get releaseEnv k = some v


end cli

/-! # Theorems -/

/-! ## The Scale Gate -/

theorem API.scaleUp_of_scaledUp (orch : Orchestrator) (a : API) (h : a.scaledUp = true) :
    API.scaleUp orch a = (a, none) := by
  simp [API.scaleUp, h]

theorem API.scaleUp_of_failure (orch : Orchestrator) (a : API) (e : Error)
    (h : a.scaledUp = false) (ho : orch a.invocations = some e) :
    API.scaleUp orch a = ({ a with invocations := a.invocations + 1 }, some e) := by
  simp [API.scaleUp, h, ho]

theorem API.scaleUp_of_success (orch : Orchestrator) (a : API)
    (h : a.scaledUp = false) (ho : orch a.invocations = none) :
    API.scaleUp orch a = ({ scaledUp := true, invocations := a.invocations + 1 }, none) := by
  simp [API.scaleUp, h, ho]

/-- C1: single-call semantics of the Scale Gate. When `scaledUp` is already true
the call returns nil, leaves the state (flag and invocation counter) untouched,
so the orchestrator is not invoked. When `scaledUp` is false the orchestrator is
invoked exactly once (the counter moves by one); if it succeeds the flag becomes
true and the call returns nil; if it fails with `e` the call returns `e` and the
flag stays false. -/
theorem scaleUp_single_call (orch : Orchestrator) (a : API) :
    (a.scaledUp = true →
      (API.scaleUp orch a).2 = none ∧ (API.scaleUp orch a).1.scaledUp = true ∧
      (API.scaleUp orch a).1.invocations = a.invocations) ∧
    (a.scaledUp = false →
      (API.scaleUp orch a).1.invocations = a.invocations + 1 ∧
      (orch a.invocations = none →
        (API.scaleUp orch a).2 = none ∧ (API.scaleUp orch a).1.scaledUp = true) ∧
      (∀ e, orch a.invocations = some e →
        (API.scaleUp orch a).2 = some e ∧ (API.scaleUp orch a).1.scaledUp = false)) := by
  refine ⟨fun h => ?_, fun h => ⟨?_, fun ho => ?_, fun e ho => ?_⟩⟩
  · rw [API.scaleUp_of_scaledUp orch a h]
    exact ⟨rfl, h, rfl⟩
  · cases ho : orch a.invocations with
    | none => rw [API.scaleUp_of_success orch a h ho]
    | some e => rw [API.scaleUp_of_failure orch a e h ho]
  · rw [API.scaleUp_of_success orch a h ho]
    exact ⟨rfl, rfl⟩
  · rw [API.scaleUp_of_failure orch a e h ho]
    exact ⟨rfl, h⟩

/-- Witness of C1: a fresh gate whose orchestrator succeeds ends scaled up after
one invocation. -/
theorem scaleUp_single_call_witness :
    API.init.scaledUp = false ∧
    (API.scaleUp (fun _ => none) API.init).1.invocations = 1 ∧
    (API.scaleUp (fun _ => none) API.init).2 = none ∧
    (API.scaleUp (fun _ => none) API.init).1.scaledUp = true :=
  ⟨rfl, ((scaleUp_single_call (fun _ => none) API.init).2 rfl).1,
    ((scaleUp_single_call (fun _ => none) API.init).2 rfl).2.1 rfl⟩


theorem API.scaleUpTimes_succ (orch : Orchestrator) (n : Nat) (a : API) :
    API.scaleUpTimes orch (n + 1) a = (API.scaleUp orch (API.scaleUpTimes orch n a)).1 := by
  induction n generalizing a with
  | zero => rfl
  | succ n ih =>
    show API.scaleUpTimes orch (n + 1) (API.scaleUp orch a).1 = _
    rw [ih]
    rfl

/-- The state reached by `n` sequential calls from the initial state: either the
flag is still false, all `n` calls invoked the orchestrator and all failed, or
the flag is true and invocation `j < n`, the first to succeed, was the last. -/
theorem API.scaleUpTimes_init (orch : Orchestrator) (n : Nat) :
    ((API.scaleUpTimes orch n API.init).scaledUp = false ∧
      (API.scaleUpTimes orch n API.init).invocations = n ∧ ∀ j < n, orch j ≠ none) ∨
    ((API.scaleUpTimes orch n API.init).scaledUp = true ∧
      ∃ j < n, (API.scaleUpTimes orch n API.init).invocations = j + 1 ∧ orch j = none ∧
        ∀ k < j, orch k ≠ none) := by
  induction n with
  | zero => exact Or.inl ⟨rfl, rfl, fun j hj => absurd hj (Nat.not_lt_zero j)⟩
  | succ n ih =>
    rw [API.scaleUpTimes_succ]
    rcases ih with ⟨hs, hi, hall⟩ | ⟨hs, j, hj, hi, hoj, hall⟩
    · cases ho : orch (API.scaleUpTimes orch n API.init).invocations with
      | none =>
        rw [API.scaleUp_of_success orch _ hs ho]
        refine Or.inr ⟨rfl, n, Nat.lt_succ_self n, ?_, ?_, hall⟩
        · simp [hi]
        · rw [← hi]; exact ho
      | some e =>
        rw [API.scaleUp_of_failure orch _ e hs ho]
        refine Or.inl ⟨hs, ?_, ?_⟩
        · simp [hi]
        · intro j hj
          rcases Nat.lt_succ_iff_lt_or_eq.mp hj with h | h
          · exact hall j h
          · subst h
            rw [← hi, ho]
            exact Option.some_ne_none e
    · rw [API.scaleUp_of_scaledUp orch _ hs]
      exact Or.inr ⟨hs, j, Nat.lt_succ_of_lt hj, hi, hoj, hall⟩

theorem API.callInvokes_iff_not_scaledUp (orch : Orchestrator) (a : API) (i : Nat) :
    API.callInvokes orch a i = true ↔ (API.scaleUpTimes orch i a).scaledUp = false := by
  unfold API.callInvokes
  cases hs : (API.scaleUpTimes orch i a).scaledUp with
  | true => simp [API.scaleUp_of_scaledUp orch _ hs]
  | false =>
    cases ho : orch (API.scaleUpTimes orch i a).invocations with
    | none => simp [API.scaleUp_of_success orch _ hs ho]
    | some e => simp [API.scaleUp_of_failure orch _ e hs ho]

theorem API.callInvokes_init_iff (orch : Orchestrator) (i : Nat) :
    API.callInvokes orch API.init i = true ↔ ∀ j < i, orch j ≠ none := by
  rw [API.callInvokes_iff_not_scaledUp]
  rcases API.scaleUpTimes_init orch i with ⟨hs, _, hall⟩ | ⟨hs, j, hj, _, hoj, _⟩
  · exact ⟨fun _ => hall, fun _ => hs⟩
  · constructor
    · intro h; rw [hs] at h; cases h
    · intro h; exact absurd hoj (h j hj)

theorem API.invocations_of_callInvokes (orch : Orchestrator) (i : Nat)
    (h : API.callInvokes orch API.init i = true) :
    (API.scaleUpTimes orch i API.init).invocations = i := by
  rw [API.callInvokes_iff_not_scaledUp] at h
  rcases API.scaleUpTimes_init orch i with ⟨_, hi, _⟩ | ⟨hs, _⟩
  · exact hi
  · rw [hs] at h; cases h

theorem API.callSucceeds_init_iff (orch : Orchestrator) (i : Nat) :
    API.callSucceeds orch API.init i = true ↔ (orch i = none ∧ ∀ j < i, orch j ≠ none) := by
  unfold API.callSucceeds
  rw [Bool.and_eq_true, decide_eq_true_iff]
  constructor
  · rintro ⟨h1, h2⟩
    rw [API.invocations_of_callInvokes orch i h1] at h2
    exact ⟨h2, (API.callInvokes_init_iff orch i).mp h1⟩
  · rintro ⟨h1, h2⟩
    have h3 := (API.callInvokes_init_iff orch i).mpr h2
    refine ⟨h3, ?_⟩
    rw [API.invocations_of_callInvokes orch i h3]
    exact h1

/-- C2: trace invariant of the Scale Gate. From the initial state, for every
orchestrator behaviour: (1) a call invokes the orchestrator exactly when no
earlier call made a successful invocation, and then it makes the invocation
with its own index; (2) the call after a failed invocation invokes again;
(3) no call after a successful invocation invokes; (4) at most one invocation
succeeds; (5) after `n` calls `scaledUp` is true exactly when one of them made
a successful invocation. -/
theorem scaleUp_trace_invariant (orch : Orchestrator) :
    (∀ i, (API.callInvokes orch API.init i = true ↔
        ∀ j < i, API.callSucceeds orch API.init j = false) ∧
      (API.callInvokes orch API.init i = true →
        (API.scaleUpTimes orch i API.init).invocations = i)) ∧
    (∀ i, API.callInvokes orch API.init i = true → API.callSucceeds orch API.init i = false →
      API.callInvokes orch API.init (i + 1) = true) ∧
    (∀ i j, i < j → API.callSucceeds orch API.init i = true →
      API.callInvokes orch API.init j = false) ∧
    (∀ i j, API.callSucceeds orch API.init i = true → API.callSucceeds orch API.init j = true →
      i = j) ∧
    (∀ n, (API.scaleUpTimes orch n API.init).scaledUp = true ↔
      ∃ i < n, API.callSucceeds orch API.init i = true) := by
  have key : ∀ i, (∀ j < i, API.callSucceeds orch API.init j = false) ↔ ∀ j < i, orch j ≠ none := by
    intro i
    constructor
    · intro h j
      induction j using Nat.strong_induction_on with
      | _ j ih =>
        intro hj hoj
        have hs := (API.callSucceeds_init_iff orch j).mpr
          ⟨hoj, fun k hk => ih k hk (Nat.lt_trans hk hj)⟩
        rw [h j hj] at hs
        cases hs
    · intro h j hj
      cases hc : API.callSucceeds orch API.init j with
      | false => rfl
      | true => exact absurd ((API.callSucceeds_init_iff orch j).mp hc).1 (h j hj)
  have later : ∀ i j, i < j → API.callSucceeds orch API.init i = true →
      API.callInvokes orch API.init j = false := by
    intro i j hij hi
    cases hc : API.callInvokes orch API.init j with
    | false => rfl
    | true =>
      exact absurd ((API.callSucceeds_init_iff orch i).mp hi).1
        ((API.callInvokes_init_iff orch j).mp hc i hij)
  refine ⟨fun i => ⟨?_, API.invocations_of_callInvokes orch i⟩, ?_, later, ?_, ?_⟩
  · rw [key, API.callInvokes_init_iff]
  · intro i hi hf
    rw [API.callInvokes_init_iff] at hi ⊢
    intro j hj
    rcases Nat.lt_succ_iff_lt_or_eq.mp hj with h | h
    · exact hi j h
    · subst h
      intro hoj
      rw [(API.callSucceeds_init_iff orch j).mpr ⟨hoj, hi⟩] at hf
      cases hf
  · intro i j hi hj
    rcases Nat.lt_trichotomy i j with h | h | h
    · have h1 := later i j h hi
      have h2 : API.callInvokes orch API.init j = true := by
        unfold API.callSucceeds at hj
        exact (Bool.and_eq_true _ _ ▸ hj).1
      rw [h1] at h2; cases h2
    · exact h
    · have h1 := later j i h hj
      have h2 : API.callInvokes orch API.init i = true := by
        unfold API.callSucceeds at hi
        exact (Bool.and_eq_true _ _ ▸ hi).1
      rw [h1] at h2; cases h2
  · intro n
    rcases API.scaleUpTimes_init orch n with ⟨hs, _, hall⟩ | ⟨hs, j, hj, _, hoj, hlt⟩
    · constructor
      · intro h; rw [hs] at h; cases h
      · rintro ⟨i, hi, hc⟩
        exact absurd ((API.callSucceeds_init_iff orch i).mp hc).1 (hall i hi)
    · exact ⟨fun _ => ⟨j, hj, (API.callSucceeds_init_iff orch j).mpr ⟨hoj, hlt⟩⟩, fun _ => hs⟩

/-- Witness of C2: with an orchestrator that fails twice and then succeeds, the
call with index 2 still invokes it, the call with index 3 does not, and the gate
is scaled up after three calls. -/
theorem scaleUp_trace_invariant_witness :
    API.callInvokes (fun n => if n < 2 then some (Error.external "down") else none)
      API.init 2 = true ∧
    API.callInvokes (fun n => if n < 2 then some (Error.external "down") else none)
      API.init 3 = false ∧
    (API.scaleUpTimes (fun n => if n < 2 then some (Error.external "down") else none)
      3 API.init).scaledUp = true :=
  ⟨by decide,
    (scaleUp_trace_invariant
      (fun n => if n < 2 then some (Error.external "down") else none)).2.2.1 2 3
      (by decide) (by decide),
    ((scaleUp_trace_invariant
      (fun n => if n < 2 then some (Error.external "down") else none)).2.2.2.2 3).mpr
      ⟨2, by decide, by decide⟩⟩


/-! ## Provision: compensation -/

/-- C3: compensation in `Provision` of the postgres and mariadb providers, for
every store behaviour and every earlier log. If CREATE USER fails with `e`, it is
the only statement sent. If CREATE DATABASE fails with `e`, DROP USER follows
and nothing else. If GRANT fails with `e`, DROP DATABASE and then DROP USER
follow and nothing else. In each case there is no reply and the error returned
is `e`, whatever the store answers to the cleanup statements. For mariadb this
is the behaviour once the scale gate and `connect` have succeeded. -/
theorem provision_compensation (store : Store) (log : List Stmt)
    (serviceName serviceHost username password database : String) (e : Error) :
    ((store log ⟨postgres.sqlCreateUser username password, []⟩ = some e →
        postgres.server.Provision store serviceName serviceHost username password database log
          = ⟨none, some e, log ++ [⟨postgres.sqlCreateUser username password, []⟩]⟩) ∧
      (store log ⟨postgres.sqlCreateUser username password, []⟩ = none →
        store (log ++ [⟨postgres.sqlCreateUser username password, []⟩])
          ⟨postgres.sqlCreateDatabase database, []⟩ = some e →
        postgres.server.Provision store serviceName serviceHost username password database log
          = ⟨none, some e, log ++ [⟨postgres.sqlCreateUser username password, []⟩,
              ⟨postgres.sqlCreateDatabase database, []⟩,
              ⟨postgres.sqlDropUser username, []⟩]⟩) ∧
      (store log ⟨postgres.sqlCreateUser username password, []⟩ = none →
        store (log ++ [⟨postgres.sqlCreateUser username password, []⟩])
          ⟨postgres.sqlCreateDatabase database, []⟩ = none →
        store (log ++ [⟨postgres.sqlCreateUser username password, []⟩,
            ⟨postgres.sqlCreateDatabase database, []⟩])
          ⟨postgres.sqlGrant database username, []⟩ = some e →
        postgres.server.Provision store serviceName serviceHost username password database log
          = ⟨none, some e, log ++ [⟨postgres.sqlCreateUser username password, []⟩,
              ⟨postgres.sqlCreateDatabase database, []⟩,
              ⟨postgres.sqlGrant database username, []⟩,
              ⟨postgres.sqlDropDatabase database, []⟩,
              ⟨postgres.sqlDropUser username, []⟩]⟩)) ∧
    (∀ (orch : Orchestrator) (a : API), (API.scaleUp orch a).2 = none →
      (store log ⟨mariadb.sqlCreateUser username password, []⟩ = some e →
        (mariadb.API.Provision orch none store serviceName serviceHost username password
          database a log).2
          = ⟨none, some e, log ++ [⟨mariadb.sqlCreateUser username password, []⟩]⟩) ∧
      (store log ⟨mariadb.sqlCreateUser username password, []⟩ = none →
        store (log ++ [⟨mariadb.sqlCreateUser username password, []⟩])
          ⟨mariadb.sqlCreateDatabase database, []⟩ = some e →
        (mariadb.API.Provision orch none store serviceName serviceHost username password
          database a log).2
          = ⟨none, some e, log ++ [⟨mariadb.sqlCreateUser username password, []⟩,
              ⟨mariadb.sqlCreateDatabase database, []⟩,
              ⟨mariadb.sqlDropUser username, []⟩]⟩) ∧
      (store log ⟨mariadb.sqlCreateUser username password, []⟩ = none →
        store (log ++ [⟨mariadb.sqlCreateUser username password, []⟩])
          ⟨mariadb.sqlCreateDatabase database, []⟩ = none →
        store (log ++ [⟨mariadb.sqlCreateUser username password, []⟩,
            ⟨mariadb.sqlCreateDatabase database, []⟩])
          ⟨mariadb.sqlGrant database username, []⟩ = some e →
        (mariadb.API.Provision orch none store serviceName serviceHost username password
          database a log).2
          = ⟨none, some e, log ++ [⟨mariadb.sqlCreateUser username password, []⟩,
              ⟨mariadb.sqlCreateDatabase database, []⟩,
              ⟨mariadb.sqlGrant database username, []⟩,
              ⟨mariadb.sqlDropDatabase database, []⟩,
              ⟨mariadb.sqlDropUser username, []⟩]⟩)) := by
  refine ⟨⟨fun h1 => ?_, fun h1 h2 => ?_, fun h1 h2 h3 => ?_⟩, fun orch a hs =>
    ⟨fun h1 => ?_, fun h1 h2 => ?_, fun h1 h2 h3 => ?_⟩⟩
  · simp [postgres.server.Provision, Exec, h1]
  · simp [postgres.server.Provision, Exec, h1, h2]
  · simp only [List.append_assoc, List.singleton_append] at h3
    simp [postgres.server.Provision, Exec, h1, h2, h3]
  · rcases hsc : API.scaleUp orch a with ⟨a1, r⟩
    simp only [hsc] at hs
    subst hs
    simp [mariadb.API.Provision, hsc, Exec, h1]
  · rcases hsc : API.scaleUp orch a with ⟨a1, r⟩
    simp only [hsc] at hs
    subst hs
    simp [mariadb.API.Provision, hsc, Exec, h1, h2]
  · rcases hsc : API.scaleUp orch a with ⟨a1, r⟩
    simp only [hsc] at hs
    subst hs
    simp only [List.append_assoc, List.singleton_append] at h3
    simp [mariadb.API.Provision, hsc, Exec, h1, h2, h3]


/-- Witness of C3: a mariadb store that accepts two statements and fails every
later one. GRANT fails, both cleanup statements are sent (and fail too), and
the error returned is the one of GRANT. -/
theorem provision_compensation_witness :
    (mariadb.API.Provision (fun _ => none) none
      (fun log _ => if log.length < 2 then none else some (Error.external "denied"))
      "mariadb" "leader.mariadb.discoverd" "a1" "b2" "c3" API.init []).2
      = ⟨none, some (Error.external "denied"),
          [] ++ [⟨mariadb.sqlCreateUser "a1" "b2", []⟩, ⟨mariadb.sqlCreateDatabase "c3", []⟩,
            ⟨mariadb.sqlGrant "c3" "a1", []⟩, ⟨mariadb.sqlDropDatabase "c3", []⟩,
            ⟨mariadb.sqlDropUser "a1", []⟩]⟩ :=
  ((provision_compensation
    (fun log _ => if log.length < 2 then none else some (Error.external "denied")) []
    "mariadb" "leader.mariadb.discoverd" "a1" "b2" "c3" (Error.external "denied")).2
    (fun _ => none) API.init rfl).2.2 rfl rfl rfl


/-! ## The `strings` functions -/

theorem TrimPrefix_append (pre rest : String) : TrimPrefix (pre ++ rest) pre = rest := by
  unfold TrimPrefix HasPrefix
  simp [String.data_append]

theorem Index_eq_none {s : List Char} {sep : Char} (h : sep ∉ s) : Index s sep = none := by
  induction s with
  | nil => rfl
  | cons c cs ih =>
    have hc : c ≠ sep := fun hc => h (hc ▸ List.mem_cons_self c cs)
    have hcs : sep ∉ cs := fun hm => h (List.mem_cons_of_mem c hm)
    simp [Index, hc, ih hcs]

theorem Index_append_sep {u : List Char} {sep : Char} (h : sep ∉ u) (d : List Char) :
    Index (u ++ sep :: d) sep = some u.length := by
  induction u with
  | nil => simp [Index]
  | cons c cs ih =>
    have hc : c ≠ sep := fun hc => h (hc ▸ List.mem_cons_self c cs)
    have hcs : sep ∉ cs := fun hm => h (List.mem_cons_of_mem c hm)
    simp [Index, hc, ih hcs]

/-- Where `Index` finds the separator, the string is the text before it, the
separator and the text after it, and the text before it is free of it. -/
theorem Index_eq_some {s : List Char} {sep : Char} {m : Nat} (h : Index s sep = some m) :
    s = s.take m ++ sep :: s.drop (m + 1) ∧ sep ∉ s.take m := by
  induction s generalizing m with
  | nil => simp [Index] at h
  | cons c cs ih =>
    by_cases hc : c = sep
    · simp [Index, hc] at h
      subst h
      simp [hc]
    · simp only [Index, hc, if_false, Option.map_eq_some'] at h
      obtain ⟨k, hk, rfl⟩ := h
      obtain ⟨h1, h2⟩ := ih hk
      refine ⟨?_, ?_⟩
      · simp only [List.take_succ_cons, List.drop_succ_cons, List.cons_append]
        rw [← h1]
      · simp only [List.take_succ_cons, List.mem_cons, not_or]
        exact ⟨fun e => hc e.symm, h2⟩

theorem SplitN_two_of_not_mem {s : String} {sep : Char} (h : sep ∉ s.data) :
    SplitN s sep 2 = [s] := by
  simp [SplitN, genSplitLoop, Index_eq_none h]

theorem SplitN_two_append (u d : String) (sep : Char) (h : sep ∉ u.data) :
    SplitN (u ++ String.singleton sep ++ d) sep 2 = [u, d] := by
  have hdata : (u ++ String.singleton sep ++ d).data = u.data ++ sep :: d.data := by
    simp [String.data_append, String.singleton]
  have hdrop : List.drop (u.data.length + 1) (u.data ++ sep :: d.data) = d.data := by
    rw [← List.drop_drop, List.drop_left]
    rfl
  have htake : List.take u.data.length (u.data ++ sep :: d.data) = u.data :=
    List.take_left _ _
  unfold SplitN
  simp only [show (2 : Nat) ≠ 0 by decide, if_false, genSplitLoop, hdata, Index_append_sep h,
    hdrop, htake, List.map_cons, List.map_nil]

/-- Whatever `SplitN` cuts in two is the first part, the separator and the
second part; the first part is free of the separator. -/
theorem SplitN_two_eq_pair {s a b : String} {sep : Char} (h : SplitN s sep 2 = [a, b]) :
    s = a ++ String.singleton sep ++ b ∧ sep ∉ a.data := by
  unfold SplitN at h
  simp only [show (2 : Nat) ≠ 0 by decide, if_false, genSplitLoop] at h
  cases hi : Index s.data sep with
  | none => simp [hi] at h
  | some m =>
    simp only [hi, List.map_cons, List.map_nil, List.cons.injEq, and_true] at h
    obtain ⟨ha, hb⟩ := h
    obtain ⟨h1, h2⟩ := Index_eq_some hi
    subst ha hb
    refine ⟨?_, h2⟩
    apply String.ext
    simp only [String.data_append, String.singleton, List.append_assoc]
    exact h1

theorem SplitN_two_length (s : String) (sep : Char) :
    SplitN s sep 2 = [s] ∨ ∃ a b, SplitN s sep 2 = [a, b] := by
  unfold SplitN
  simp only [show (2 : Nat) ≠ 0 by decide, if_false, genSplitLoop]
  cases hi : Index s.data sep with
  | none => exact Or.inl rfl
  | some m => exact Or.inr ⟨_, _, rfl⟩

theorem isHexDigit_ne_colon {c : Char} (h : isHexDigit c = true) : c ≠ ':' := by
  intro hc
  subst hc
  revert h
  decide

/-! ## Resource ids -/

/-- The id built from a hexadecimal `username` and `database` is cut by the
parser of `Deprovision` into exactly `[username, database]`, and the second
part is not empty. -/
theorem splitId_provisionId (username database : String)
    (hu : isHex username) (hd : isHex database) :
    splitId (provisionId username database) = [username, database] ∧ database ≠ "" := by
  have hcolon : ':' ∉ username.data := fun hm => isHexDigit_ne_colon (hu.2 ':' hm) rfl
  refine ⟨?_, ?_⟩
  · unfold splitId provisionId
    have e : "/databases/" ++ username ++ ":" ++ database
        = "/databases/" ++ (username ++ String.singleton ':' ++ database) := by
      apply String.ext
      simp [String.data_append, String.singleton]
    rw [e, TrimPrefix_append]
    exact SplitN_two_append username database ':' hcolon
  · intro h
    apply hd.1
    rw [h]

/-- C4: id round trip. For non-empty hexadecimal `username` and `database`, every
store and every earlier log. Whenever `Provision` of the postgres or of the
mariadb provider returns a reply, the statements it sent are CREATE USER
`username`, CREATE DATABASE `database` and the GRANT, the parser of
`Deprovision` cuts the returned id into exactly `[username, database]`, the
second part is not empty, and `Deprovision` of that id, on a store that accepts
every statement, tears down `database` and `username`. `Provision` does return
a reply, with a nil error, when the three statements succeed (for mariadb: when
also the scale gate and `connect` succeed). -/
theorem provisionId_round_trip (store : Store) (log : List Stmt)
    (serviceName serviceHost username password database : String)
    (hu : isHex username) (hd : isHex database) :
    ((∀ r, (postgres.server.Provision store serviceName serviceHost username password
          database log).reply = some r →
        (postgres.server.Provision store serviceName serviceHost username password
          database log).log
          = log ++ [⟨postgres.sqlCreateUser username password, []⟩,
              ⟨postgres.sqlCreateDatabase database, []⟩,
              ⟨postgres.sqlGrant database username, []⟩] ∧
        splitId r.Id = [username, database] ∧ database ≠ "" ∧
        ∀ log2, (postgres.server.Deprovision (fun _ _ => none) log2 r.Id).log
          = log2 ++ [⟨postgres.disallowConns, [database]⟩,
              ⟨postgres.disconnectConns, [database]⟩,
              ⟨postgres.sqlDropDatabase database, []⟩,
              ⟨postgres.sqlDropUser username, []⟩]) ∧
      (store log ⟨postgres.sqlCreateUser username password, []⟩ = none →
        store (log ++ [⟨postgres.sqlCreateUser username password, []⟩])
          ⟨postgres.sqlCreateDatabase database, []⟩ = none →
        store (log ++ [⟨postgres.sqlCreateUser username password, []⟩,
            ⟨postgres.sqlCreateDatabase database, []⟩])
          ⟨postgres.sqlGrant database username, []⟩ = none →
        ∃ r, (postgres.server.Provision store serviceName serviceHost username password
            database log).reply = some r ∧
          (postgres.server.Provision store serviceName serviceHost username password
            database log).err = none)) ∧
    (∀ (orch : Orchestrator) (connect : Option Error) (a : API),
      (∀ r, (mariadb.API.Provision orch connect store serviceName serviceHost username password
          database a log).2.reply = some r →
        (mariadb.API.Provision orch connect store serviceName serviceHost username password
          database a log).2.log
          = log ++ [⟨mariadb.sqlCreateUser username password, []⟩,
              ⟨mariadb.sqlCreateDatabase database, []⟩,
              ⟨mariadb.sqlGrant database username, []⟩] ∧
        splitId r.Id = [username, database] ∧ database ≠ "" ∧
        ∀ log2, (mariadb.API.Deprovision none (fun _ _ => none) log2 r.Id).log
          = log2 ++ [⟨mariadb.sqlDropDatabase database, []⟩,
              ⟨mariadb.sqlDropUser username, []⟩]) ∧
      ((API.scaleUp orch a).2 = none → connect = none →
        store log ⟨mariadb.sqlCreateUser username password, []⟩ = none →
        store (log ++ [⟨mariadb.sqlCreateUser username password, []⟩])
          ⟨mariadb.sqlCreateDatabase database, []⟩ = none →
        store (log ++ [⟨mariadb.sqlCreateUser username password, []⟩,
            ⟨mariadb.sqlCreateDatabase database, []⟩])
          ⟨mariadb.sqlGrant database username, []⟩ = none →
        ∃ r, (mariadb.API.Provision orch connect store serviceName serviceHost username
            password database a log).2.reply = some r ∧
          (mariadb.API.Provision orch connect store serviceName serviceHost username
            password database a log).2.err = none)) := by
  obtain ⟨hsplit, hne⟩ := splitId_provisionId username database hu hd
  refine ⟨⟨fun r hr => ?_, fun h1 h2 h3 => ?_⟩, fun orch connect a =>
    ⟨fun r hr => ?_, fun hs hc h1 h2 h3 => ?_⟩⟩
  · cases h1 : store log ⟨postgres.sqlCreateUser username password, []⟩ with
    | some e => simp [postgres.server.Provision, Exec, h1] at hr
    | none =>
      cases h2 : store (log ++ [⟨postgres.sqlCreateUser username password, []⟩])
          ⟨postgres.sqlCreateDatabase database, []⟩ with
      | some e => simp [postgres.server.Provision, Exec, h1, h2] at hr
      | none =>
        cases h3 : store (log ++ [⟨postgres.sqlCreateUser username password, []⟩,
            ⟨postgres.sqlCreateDatabase database, []⟩])
            ⟨postgres.sqlGrant database username, []⟩ with
        | some e => simp [postgres.server.Provision, Exec, h1, h2, h3] at hr
        | none =>
          simp [postgres.server.Provision, Exec, h1, h2, h3] at hr
          subst hr
          refine ⟨?_, hsplit, hne, fun log2 => ?_⟩
          · simp [postgres.server.Provision, Exec, h1, h2, h3]
          · simp [postgres.server.Deprovision, hsplit, hne, Exec]
  · simp only [List.append_assoc, List.singleton_append] at h3
    simp [postgres.server.Provision, Exec, h1, h2, h3]
  · rcases hsc : API.scaleUp orch a with ⟨a1, _ | e0⟩
    · cases connect with
      | some e => simp [mariadb.API.Provision, hsc] at hr
      | none =>
        cases h1 : store log ⟨mariadb.sqlCreateUser username password, []⟩ with
        | some e => simp [mariadb.API.Provision, hsc, Exec, h1] at hr
        | none =>
          cases h2 : store (log ++ [⟨mariadb.sqlCreateUser username password, []⟩])
              ⟨mariadb.sqlCreateDatabase database, []⟩ with
          | some e => simp [mariadb.API.Provision, hsc, Exec, h1, h2] at hr
          | none =>
            cases h3 : store (log ++ [⟨mariadb.sqlCreateUser username password, []⟩,
                ⟨mariadb.sqlCreateDatabase database, []⟩])
                ⟨mariadb.sqlGrant database username, []⟩ with
            | some e => simp [mariadb.API.Provision, hsc, Exec, h1, h2, h3] at hr
            | none =>
              simp [mariadb.API.Provision, hsc, Exec, h1, h2, h3] at hr
              subst hr
              refine ⟨?_, hsplit, hne, fun log2 => ?_⟩
              · simp [mariadb.API.Provision, hsc, Exec, h1, h2, h3]
              · simp [mariadb.API.Deprovision, hsplit, hne, Exec]
    · simp [mariadb.API.Provision, hsc] at hr
  · rcases hsc : API.scaleUp orch a with ⟨a1, r0⟩
    simp only [hsc] at hs
    subst hs
    subst hc
    simp only [List.append_assoc, List.singleton_append] at h3
    simp [mariadb.API.Provision, hsc, Exec, h1, h2, h3]

/-- Witness of C4: on a store that accepts every statement, the postgres
`Provision` with the generated names "0a1f" and "beef" returns a reply whose
id is cut into exactly those two names. -/
theorem provisionId_round_trip_witness :
    ∃ r, (postgres.server.Provision (fun _ _ => none) "postgres" "leader.postgres.discoverd"
        "0a1f" "5ec2" "beef" []).reply = some r ∧ splitId r.Id = ["0a1f", "beef"] :=
  match (provisionId_round_trip (fun _ _ => none) [] "postgres" "leader.postgres.discoverd"
      "0a1f" "5ec2" "beef" ⟨by decide, by decide⟩ ⟨by decide, by decide⟩).1.2 rfl rfl rfl with
  | ⟨r, hr, _⟩ =>
    ⟨r, hr, ((provisionId_round_trip (fun _ _ => none) [] "postgres"
      "leader.postgres.discoverd" "0a1f" "5ec2" "beef" ⟨by decide, by decide⟩
      ⟨by decide, by decide⟩).1.1 r hr).2.1⟩


theorem Index_append_sep_le (p q : List Char) (sep : Char) :
    ∃ m, Index (p ++ sep :: q) sep = some m ∧ m ≤ p.length := by
  induction p with
  | nil => exact ⟨0, by simp [Index], Nat.le_refl 0⟩
  | cons c cs ih =>
    obtain ⟨m, hm, hle⟩ := ih
    by_cases hc : c = sep
    · exact ⟨0, by simp [Index, hc], Nat.zero_le _⟩
    · exact ⟨m + 1, by simp [Index, hc, hm], Nat.succ_le_succ hle⟩

/-- The guard of `Deprovision` lets an id through exactly when it has a schema
segment. -/
theorem splitId_accepts_iff (reqId : String) :
    (∃ user database, splitId reqId = [user, database] ∧ database ≠ "") ↔
      hasSchemaSegment reqId := by
  unfold hasSchemaSegment splitId
  constructor
  · rintro ⟨user, database, h, hd⟩
    exact ⟨user, database, hd, (SplitN_two_eq_pair h).1⟩
  · rintro ⟨p, q, hq, h⟩
    rw [h]
    have hdata : (p ++ ":" ++ q).data = p.data ++ ':' :: q.data := by
      simp [String.data_append]
    obtain ⟨m, hm, hle⟩ := Index_append_sep_le p.data q.data ':'
    refine ⟨String.mk ((p.data ++ ':' :: q.data).take m),
      String.mk ((p.data ++ ':' :: q.data).drop (m + 1)), ?_, ?_⟩
    · unfold SplitN
      simp only [show (2 : Nat) ≠ 0 by decide, if_false, genSplitLoop, hdata, hm,
        List.map_cons, List.map_nil]
    · intro hempty
      have hlen : ((p.data ++ ':' :: q.data).drop (m + 1)).length = 0 := by
        have := congrArg String.data hempty
        simp only at this
        rw [this]
        rfl
      have hq' : q.data ≠ [] := fun hnil => hq (String.ext hnil)
      have hpos : 0 < q.data.length := List.length_pos.mpr hq'
      simp only [List.length_drop, List.length_append, List.length_cons] at hlen
      omega

/-- Counterexample to C5 as stated: the id "/databases/:db" has an empty principal
segment, so it does not consist of two non-empty segments, yet no provider
answers it with the invalid-id error: each runs its teardown with the empty
principal. -/
theorem deprovision_accepts_empty_principal :
    ¬ specTwoNonEmptySegments "/databases/:db" ∧
    postgres.server.Deprovision (fun _ _ => none) [] "/databases/:db"
      = ⟨{}, none, [⟨postgres.disallowConns, ["db"]⟩, ⟨postgres.disconnectConns, ["db"]⟩,
          ⟨postgres.sqlDropDatabase "db", []⟩, ⟨postgres.sqlDropUser "", []⟩]⟩ ∧
    mariadb.API.Deprovision none (fun _ _ => none) [] "/databases/:db"
      = ⟨{}, none, [⟨mariadb.sqlDropDatabase "db", []⟩, ⟨mariadb.sqlDropUser "", []⟩]⟩ ∧
    mongodb.API.Deprovision none (fun _ _ => none) [] "/databases/:db"
      = ⟨{}, none, [.dropUser "db" "", .dropDatabase "db"]⟩ := by
  refine ⟨?_, by decide, by decide, by decide⟩
  rintro ⟨p, q, hp, _, h⟩
  have ht : TrimPrefix "/databases/:db" "/databases/" = ":db" := by decide
  rw [ht] at h
  have hdata := congrArg String.data h
  simp only [String.data_append] at hdata
  have hp' : p.data ≠ [] := fun hnil => hp (String.ext hnil)
  cases hpd : p.data with
  | nil => exact hp' hpd
  | cons c cs =>
    rw [hpd] at hdata
    have h2 : ['d', 'b'] = cs ++ ":".data ++ q.data := by
      simpa using (List.cons.inj hdata).2
    have hmem : ':' ∈ ['d', 'b'] := by
      rw [h2]
      simp
    exact absurd hmem (by decide)

/-- An id without a schema segment is turned down by the guard of every
provider before anything is sent. -/
theorem Deprovision_invalid_of_no_schema (reqId : String) (hno : ¬ hasSchemaSegment reqId) :
    (∀ (store : Store) (log : List Stmt),
      postgres.server.Deprovision store log reqId = ⟨{}, some errIdInvalid, log⟩) ∧
    (∀ (connect : Option Error) (store : Store) (log : List Stmt),
      mariadb.API.Deprovision connect store log reqId = ⟨{}, some errIdInvalid, log⟩) ∧
    (∀ (dial : Option Error) (server : mongodb.Server) (log : List mongodb.Command),
      mongodb.API.Deprovision dial server log reqId = ⟨{}, some errIdInvalid, log⟩) := by
  have hsplit : ∀ user database, splitId reqId = [user, database] → database = "" := by
    intro user database h
    by_contra hd
    exact hno ((splitId_accepts_iff reqId).mp ⟨user, database, h, hd⟩)
  rcases SplitN_two_length (TrimPrefix reqId "/databases/") ':' with h | ⟨a, b, h⟩
  · have hs : splitId reqId = [TrimPrefix reqId "/databases/"] := h
    refine ⟨fun store log => ?_, fun connect store log => ?_, fun dial server log => ?_⟩
    · simp [postgres.server.Deprovision, hs]
    · simp [mariadb.API.Deprovision, hs]
    · simp [mongodb.API.Deprovision, hs]
  · have hs : splitId reqId = [a, b] := h
    have hb : b = "" := hsplit a b hs
    refine ⟨fun store log => ?_, fun connect store log => ?_, fun dial server log => ?_⟩
    · simp [postgres.server.Deprovision, hs, hb]
    · simp [mariadb.API.Deprovision, hs, hb]
    · simp [mongodb.API.Deprovision, hs, hb]

theorem not_hasSchemaSegment_bogus : ¬ hasSchemaSegment "/databases/bogus" := by
  rintro ⟨p, q, _, h⟩
  have ht : TrimPrefix "/databases/bogus" "/databases/" = "bogus" := by decide
  rw [ht] at h
  have hmem : ':' ∈ "bogus".data := by
    rw [h]
    simp [String.data_append]
  exact absurd hmem (by decide)

/-- C5, amended: for every id, every store behaviour and every earlier log, an id
that is not of the form `principal ++ ":" ++ schema` with a non-empty schema
(after the "/databases/" prefix is removed) is answered by every provider with
the invalid-id error and no statement is sent; an id of that form, whose
principal may be empty, passes the guard. -/
theorem deprovision_rejects_without_schema (reqId : String) :
    (¬ hasSchemaSegment reqId →
      (∀ (store : Store) (log : List Stmt),
        postgres.server.Deprovision store log reqId = ⟨{}, some errIdInvalid, log⟩) ∧
      (∀ (connect : Option Error) (store : Store) (log : List Stmt),
        mariadb.API.Deprovision connect store log reqId = ⟨{}, some errIdInvalid, log⟩) ∧
      (∀ (dial : Option Error) (server : mongodb.Server) (log : List mongodb.Command),
        mongodb.API.Deprovision dial server log reqId = ⟨{}, some errIdInvalid, log⟩)) ∧
    (hasSchemaSegment reqId →
      ∃ user database, splitId reqId = [user, database] ∧ database ≠ "") := by
  exact ⟨Deprovision_invalid_of_no_schema reqId, (splitId_accepts_iff reqId).mpr⟩

/-- Witness of C5: the id "/databases/bogus" has no delimiter and the mongodb
provider answers it with the invalid-id error, no command being run. -/
theorem deprovision_rejects_without_schema_witness :
    mongodb.API.Deprovision none (fun _ _ => none) [] "/databases/bogus"
      = ⟨{}, some errIdInvalid, []⟩ :=
  ((deprovision_rejects_without_schema "/databases/bogus").1
    not_hasSchemaSegment_bogus).2.2 none (fun _ _ => none) []

/-! ## Deprovision: teardown -/

/-- Counterexample to C6 as stated: on the well-formed id "/databases/0a1f:beef"
the mongodb provider runs `dropUser` first and `dropDatabase` second, and when
`dropUser` fails it has been issued without any database drop. -/
theorem mongodb_deprovision_drops_user_first :
    (mongodb.API.Deprovision none (fun _ _ => none) [] "/databases/0a1f:beef").log
      = [.dropUser "beef" "0a1f", .dropDatabase "beef"] ∧
    List.indexOf (mongodb.Command.dropUser "beef" "0a1f")
        (mongodb.API.Deprovision none (fun _ _ => none) [] "/databases/0a1f:beef").log
      < List.indexOf (mongodb.Command.dropDatabase "beef")
        (mongodb.API.Deprovision none (fun _ _ => none) [] "/databases/0a1f:beef").log ∧
    (mongodb.API.Deprovision none (fun _ _ => some (Error.external "down")) []
        "/databases/0a1f:beef").log
      = [.dropUser "beef" "0a1f"] := by
  decide

/-- C6, amended: for every id that passes the guard, with `user` and `database`
its two parts. The mariadb provider sends DROP DATABASE and then DROP USER, the
latter exactly when the connection was opened and DROP DATABASE succeeded. The
postgres provider sends DROP DATABASE and then DROP USER as its third and
fourth statements, DROP USER exactly when the three statements before it
succeeded. The mongodb provider runs `dropUser` first and `dropDatabase`
second, the latter exactly when the session was dialled and `dropUser`
succeeded. -/
theorem deprovision_teardown_order (reqId : String) (h : hasSchemaSegment reqId) :
    ∃ user database, splitId reqId = [user, database] ∧ database ≠ "" ∧
    (∀ (connect : Option Error) (store : Store) (log : List Stmt),
      ((mariadb.API.Deprovision connect store log reqId).log = log ∧ connect ≠ none) ∨
      ((mariadb.API.Deprovision connect store log reqId).log
          = log ++ [⟨mariadb.sqlDropDatabase database, []⟩] ∧
        connect = none ∧ store log ⟨mariadb.sqlDropDatabase database, []⟩ ≠ none) ∨
      ((mariadb.API.Deprovision connect store log reqId).log
          = log ++ [⟨mariadb.sqlDropDatabase database, []⟩, ⟨mariadb.sqlDropUser user, []⟩] ∧
        connect = none ∧ store log ⟨mariadb.sqlDropDatabase database, []⟩ = none)) ∧
    (∀ (store : Store) (log : List Stmt),
      (∃ n < 3, (postgres.server.Deprovision store log reqId).log
          = log ++ [⟨postgres.disallowConns, [database]⟩,
              ⟨postgres.disconnectConns, [database]⟩,
              ⟨postgres.sqlDropDatabase database, []⟩].take (n + 1) ∧
        (postgres.server.Deprovision store log reqId).err ≠ none) ∨
      ((postgres.server.Deprovision store log reqId).log
          = log ++ [⟨postgres.disallowConns, [database]⟩,
              ⟨postgres.disconnectConns, [database]⟩,
              ⟨postgres.sqlDropDatabase database, []⟩, ⟨postgres.sqlDropUser user, []⟩] ∧
        store (log ++ [⟨postgres.disallowConns, [database]⟩,
              ⟨postgres.disconnectConns, [database]⟩])
          ⟨postgres.sqlDropDatabase database, []⟩ = none)) ∧
    (∀ (dial : Option Error) (server : mongodb.Server) (log : List mongodb.Command),
      ((mongodb.API.Deprovision dial server log reqId).log = log ∧ dial ≠ none) ∨
      ((mongodb.API.Deprovision dial server log reqId).log
          = log ++ [.dropUser database user] ∧
        dial = none ∧ server log (.dropUser database user) ≠ none) ∨
      ((mongodb.API.Deprovision dial server log reqId).log
          = log ++ [.dropUser database user, .dropDatabase database] ∧
        dial = none ∧ server log (.dropUser database user) = none)) := by
  obtain ⟨user, database, hs, hd⟩ := (splitId_accepts_iff reqId).mpr h
  refine ⟨user, database, hs, hd, fun connect store log => ?_, fun store log => ?_,
    fun dial server log => ?_⟩
  · cases hc : connect with
    | some e => exact Or.inl (by simp [mariadb.API.Deprovision, hs, hd])
    | none =>
      cases h1 : store log ⟨mariadb.sqlDropDatabase database, []⟩ with
      | some e => exact Or.inr (Or.inl (by simp [mariadb.API.Deprovision, hs, hd, Exec, h1]))
      | none =>
        refine Or.inr (Or.inr ⟨?_, rfl, rfl⟩)
        cases h2 : store (log ++ [⟨mariadb.sqlDropDatabase database, []⟩])
            ⟨mariadb.sqlDropUser user, []⟩ <;>
          simp [mariadb.API.Deprovision, hs, hd, Exec, h1, h2]
  · cases h1 : store log ⟨postgres.disallowConns, [database]⟩ with
    | some e =>
      exact Or.inl ⟨0, by decide, by simp [postgres.server.Deprovision, hs, hd, Exec, h1]⟩
    | none =>
      cases h2 : store (log ++ [⟨postgres.disallowConns, [database]⟩])
          ⟨postgres.disconnectConns, [database]⟩ with
      | some e =>
        exact Or.inl ⟨1, by decide,
          by simp [postgres.server.Deprovision, hs, hd, Exec, h1, h2]⟩
      | none =>
        cases h3 : store (log ++ [⟨postgres.disallowConns, [database]⟩,
            ⟨postgres.disconnectConns, [database]⟩])
            ⟨postgres.sqlDropDatabase database, []⟩ with
        | some e =>
          exact Or.inl ⟨2, by decide,
            by simp [postgres.server.Deprovision, hs, hd, Exec, h1, h2, h3]⟩
        | none =>
          refine Or.inr ⟨?_, rfl⟩
          cases h4 : store (log ++ [⟨postgres.disallowConns, [database]⟩,
              ⟨postgres.disconnectConns, [database]⟩,
              ⟨postgres.sqlDropDatabase database, []⟩])
              ⟨postgres.sqlDropUser user, []⟩ <;>
            simp [postgres.server.Deprovision, hs, hd, Exec, h1, h2, h3, h4]
  · cases hc : dial with
    | some e => exact Or.inl (by simp [mongodb.API.Deprovision, hs, hd])
    | none =>
      cases h1 : server log (.dropUser database user) with
      | some e =>
        exact Or.inr (Or.inl (by simp [mongodb.API.Deprovision, hs, hd, mongodb.Run, h1]))
      | none =>
        refine Or.inr (Or.inr ⟨?_, rfl, rfl⟩)
        cases h2 : server (log ++ [.dropUser database user]) (.dropDatabase database) <;>
          simp [mongodb.API.Deprovision, hs, hd, mongodb.Run, h1, h2]

/-- Witness of C6 at the id "/databases/0a1f:beef" with a mariadb store that
accepts everything: DROP DATABASE is sent first and DROP USER second. -/
theorem deprovision_teardown_order_witness :
    ∃ user database, splitId "/databases/0a1f:beef" = [user, database] ∧ database ≠ "" ∧
      (mariadb.API.Deprovision none (fun _ _ => none) [] "/databases/0a1f:beef").log
        = [] ++ [⟨mariadb.sqlDropDatabase database, []⟩, ⟨mariadb.sqlDropUser user, []⟩] :=
  match deprovision_teardown_order "/databases/0a1f:beef"
      ⟨"0a1f", "beef", by decide, by decide⟩ with
  | ⟨user, database, hs, hd, hm, _⟩ =>
    ⟨user, database, hs, hd,
      (hm none (fun _ _ => none) []).elim (fun h1 => absurd rfl h1.2)
        (fun h2 => h2.elim (fun h3 => absurd rfl h3.2.2) (fun h4 => h4.1))⟩

/-- C7: statement trace of the postgres `Deprovision`, for every id, store
behaviour and earlier log. An id rejected by the guard gets the invalid-id
error and no statement is sent. Otherwise, with `user` and `database` the two
parts of the id, the statements sent are the first `n` of [disallow new
connections to `database`, terminate the sessions on `database`, DROP DATABASE
`database`, DROP USER `user`] for some `1 ≤ n ≤ 4`: every statement before the
`n`-th succeeded, the call returns the store's answer to the `n`-th, and that
answer is an error unless `n = 4`. Nothing else is sent, so there is no
compensation. -/
theorem postgres_deprovision_trace (store : Store) (log : List Stmt) (reqId : String) :
    (¬ hasSchemaSegment reqId →
      postgres.server.Deprovision store log reqId = ⟨{}, some errIdInvalid, log⟩) ∧
    (hasSchemaSegment reqId →
      ∃ user database, splitId reqId = [user, database] ∧ database ≠ "" ∧
      ∃ n, 1 ≤ n ∧ n ≤ 4 ∧
        (postgres.server.Deprovision store log reqId).log
          = log ++ [⟨postgres.disallowConns, [database]⟩,
              ⟨postgres.disconnectConns, [database]⟩,
              ⟨postgres.sqlDropDatabase database, []⟩,
              ⟨postgres.sqlDropUser user, []⟩].take n ∧
        (∀ i q, i + 1 < n →
          [⟨postgres.disallowConns, [database]⟩, ⟨postgres.disconnectConns, [database]⟩,
            ⟨postgres.sqlDropDatabase database, []⟩,
            (⟨postgres.sqlDropUser user, []⟩ : Stmt)].get? i = some q →
          store (log ++ [⟨postgres.disallowConns, [database]⟩,
            ⟨postgres.disconnectConns, [database]⟩,
            ⟨postgres.sqlDropDatabase database, []⟩,
            ⟨postgres.sqlDropUser user, []⟩].take i) q = none) ∧
        (∃ q, [⟨postgres.disallowConns, [database]⟩, ⟨postgres.disconnectConns, [database]⟩,
            ⟨postgres.sqlDropDatabase database, []⟩,
            (⟨postgres.sqlDropUser user, []⟩ : Stmt)].get? (n - 1) = some q ∧
          (postgres.server.Deprovision store log reqId).err
            = store (log ++ [⟨postgres.disallowConns, [database]⟩,
                ⟨postgres.disconnectConns, [database]⟩,
                ⟨postgres.sqlDropDatabase database, []⟩,
                ⟨postgres.sqlDropUser user, []⟩].take (n - 1)) q) ∧
        (n < 4 → (postgres.server.Deprovision store log reqId).err ≠ none)) := by
  refine ⟨fun hno => (Deprovision_invalid_of_no_schema reqId hno).1 store log, fun h => ?_⟩
  obtain ⟨user, database, hs, hd⟩ := (splitId_accepts_iff reqId).mpr h
  refine ⟨user, database, hs, hd, ?_⟩
  cases h1 : store log ⟨postgres.disallowConns, [database]⟩ with
  | some e =>
    refine ⟨1, by decide, by decide, ?_, ?_, ⟨_, rfl, ?_⟩, ?_⟩
    · simp [postgres.server.Deprovision, hs, hd, Exec, h1]
    · intro i q hi; omega
    · simp [postgres.server.Deprovision, hs, hd, Exec, h1]
    · simp [postgres.server.Deprovision, hs, hd, Exec, h1]
  | none =>
    cases h2 : store (log ++ [⟨postgres.disallowConns, [database]⟩])
        ⟨postgres.disconnectConns, [database]⟩ with
    | some e =>
      refine ⟨2, by decide, by decide, ?_, ?_, ⟨_, rfl, ?_⟩, ?_⟩
      · simp [postgres.server.Deprovision, hs, hd, Exec, h1, h2]
      · intro i q hi hq
        have hi0 : i = 0 := by omega
        subst hi0
        simp only [List.get?_cons_zero, Option.some.injEq] at hq
        subst hq
        simpa using h1
      · simp [postgres.server.Deprovision, hs, hd, Exec, h1, h2]
      · simp [postgres.server.Deprovision, hs, hd, Exec, h1, h2]
    | none =>
      cases h3 : store (log ++ [⟨postgres.disallowConns, [database]⟩,
          ⟨postgres.disconnectConns, [database]⟩])
          ⟨postgres.sqlDropDatabase database, []⟩ with
      | some e =>
        refine ⟨3, by decide, by decide, ?_, ?_, ⟨_, rfl, ?_⟩, ?_⟩
        · simp [postgres.server.Deprovision, hs, hd, Exec, h1, h2, h3]
        · intro i q hi hq
          have hi0 : i = 0 ∨ i = 1 := by omega
          rcases hi0 with rfl | rfl
          · simp only [List.get?_cons_zero, Option.some.injEq] at hq
            subst hq
            simpa using h1
          · simp only [List.get?_cons_succ, List.get?_cons_zero, Option.some.injEq] at hq
            subst hq
            simpa using h2
        · simp [postgres.server.Deprovision, hs, hd, Exec, h1, h2, h3]
        · simp [postgres.server.Deprovision, hs, hd, Exec, h1, h2, h3]
      | none =>
        refine ⟨4, by decide, by decide, ?_, ?_, ⟨_, rfl, ?_⟩, ?_⟩
        · cases h4 : store (log ++ [⟨postgres.disallowConns, [database]⟩,
              ⟨postgres.disconnectConns, [database]⟩,
              ⟨postgres.sqlDropDatabase database, []⟩])
              ⟨postgres.sqlDropUser user, []⟩ <;>
            simp [postgres.server.Deprovision, hs, hd, Exec, h1, h2, h3, h4]
        · intro i q hi hq
          have hi0 : i = 0 ∨ i = 1 ∨ i = 2 := by omega
          rcases hi0 with rfl | rfl | rfl
          · simp only [List.get?_cons_zero, Option.some.injEq] at hq
            subst hq
            simpa using h1
          · simp only [List.get?_cons_succ, List.get?_cons_zero, Option.some.injEq] at hq
            subst hq
            simpa using h2
          · simp only [List.get?_cons_succ, List.get?_cons_zero, Option.some.injEq] at hq
            subst hq
            simpa using h3
        · cases h4 : store (log ++ [⟨postgres.disallowConns, [database]⟩,
              ⟨postgres.disconnectConns, [database]⟩,
              ⟨postgres.sqlDropDatabase database, []⟩])
              ⟨postgres.sqlDropUser user, []⟩ <;>
            simp [postgres.server.Deprovision, hs, hd, Exec, h1, h2, h3, h4]
        · intro hlt; exact absurd hlt (by decide)

/-- Witness of C7: the id "/databases/bogus" is rejected and nothing is sent, even
to a store that would accept everything; the id "/databases/0a1f:beef" passes
the guard. -/
theorem postgres_deprovision_trace_witness :
    postgres.server.Deprovision (fun _ _ => none) [] "/databases/bogus"
      = ⟨{}, some errIdInvalid, []⟩ ∧
    ∃ user database, splitId "/databases/0a1f:beef" = [user, database] ∧ database ≠ "" ∧
      ∃ n, 1 ≤ n ∧ n ≤ 4 ∧
        (postgres.server.Deprovision (fun _ _ => none) [] "/databases/0a1f:beef").log
          = [] ++ [⟨postgres.disallowConns, [database]⟩,
              ⟨postgres.disconnectConns, [database]⟩,
              ⟨postgres.sqlDropDatabase database, []⟩,
              ⟨postgres.sqlDropUser user, []⟩].take n :=
  ⟨(postgres_deprovision_trace (fun _ _ => none) [] "/databases/bogus").1
      not_hasSchemaSegment_bogus,
    match (postgres_deprovision_trace (fun _ _ => none) [] "/databases/0a1f:beef").2
        ⟨"0a1f", "beef", by decide, by decide⟩ with
    | ⟨user, database, hs, hd, n, h1, h4, hlog, _⟩ =>
      ⟨user, database, hs, hd, n, h1, h4, hlog⟩⟩

/-! ## Tunables -/

/-- C8: `UpdateTunables` of the three providers, for every request. When the
singleton setting is "true" the call returns an error and nothing is submitted
to the tunables store client. Otherwise exactly one update is submitted, to the
leader address of the provider, carrying the data and the version of the
request as they are, and the call returns the answer of the store client. -/
theorem updateTunables_contract (singleton serviceHost : String) (sc : TunablesClient)
    (submitted : List (String × Tunables)) (req : UpdateTunablesRequest) :
    (singleton = "true" →
      ((postgres.server.UpdateTunables singleton serviceHost sc submitted req).err ≠ none ∧
        (postgres.server.UpdateTunables singleton serviceHost sc submitted req).submitted
          = submitted) ∧
      ((mariadb.API.UpdateTunables singleton serviceHost sc submitted req).err ≠ none ∧
        (mariadb.API.UpdateTunables singleton serviceHost sc submitted req).submitted
          = submitted) ∧
      ((mongodb.API.UpdateTunables singleton serviceHost sc submitted req).err ≠ none ∧
        (mongodb.API.UpdateTunables singleton serviceHost sc submitted req).submitted
          = submitted)) ∧
    (singleton ≠ "true" →
      ((postgres.server.UpdateTunables singleton serviceHost sc submitted req).submitted
          = submitted ++ [(serviceHost ++ ":5432", ⟨req.Tunables, req.Version⟩)] ∧
        (postgres.server.UpdateTunables singleton serviceHost sc submitted req).err
          = sc submitted (serviceHost ++ ":5432") ⟨req.Tunables, req.Version⟩) ∧
      ((mariadb.API.UpdateTunables singleton serviceHost sc submitted req).submitted
          = submitted ++ [(serviceHost ++ ":3306", ⟨req.Tunables, req.Version⟩)] ∧
        (mariadb.API.UpdateTunables singleton serviceHost sc submitted req).err
          = sc submitted (serviceHost ++ ":3306") ⟨req.Tunables, req.Version⟩) ∧
      ((mongodb.API.UpdateTunables singleton serviceHost sc submitted req).submitted
          = submitted ++ [(serviceHost ++ ":27017", ⟨req.Tunables, req.Version⟩)] ∧
        (mongodb.API.UpdateTunables singleton serviceHost sc submitted req).err
          = sc submitted (serviceHost ++ ":27017") ⟨req.Tunables, req.Version⟩)) := by
  refine ⟨fun h => ?_, fun h => ?_⟩
  · simp [postgres.server.UpdateTunables, mariadb.API.UpdateTunables,
      mongodb.API.UpdateTunables, updateTunables, h]
  · simp [postgres.server.UpdateTunables, mariadb.API.UpdateTunables,
      mongodb.API.UpdateTunables, updateTunables, h]

/-- Witness of C8: on a cluster that is not a singleton, a store client that
answers with a conflict sees one update, with the data and version 3 of the
request, and its conflict is what the postgres provider returns; on a singleton
cluster nothing is submitted. -/
theorem updateTunables_contract_witness :
    ((postgres.server.UpdateTunables "" "leader.pg.discoverd"
        (fun _ _ _ => some (Error.external "conflict")) [] ⟨[("max_conn", "100")], 3⟩).submitted
        = [] ++ [("leader.pg.discoverd" ++ ":5432", ⟨[("max_conn", "100")], 3⟩)] ∧
      (postgres.server.UpdateTunables "" "leader.pg.discoverd"
        (fun _ _ _ => some (Error.external "conflict")) [] ⟨[("max_conn", "100")], 3⟩).err
        = some (Error.external "conflict")) ∧
    (mariadb.API.UpdateTunables "true" "leader.mariadb.discoverd"
        (fun _ _ _ => none) [] ⟨[("max_conn", "100")], 3⟩).submitted = [] :=
  ⟨((updateTunables_contract "" "leader.pg.discoverd"
      (fun _ _ _ => some (Error.external "conflict")) [] ⟨[("max_conn", "100")], 3⟩).2
      (by decide)).1,
    (((updateTunables_contract "true" "leader.mariadb.discoverd"
      (fun _ _ _ => none) [] ⟨[("max_conn", "100")], 3⟩).1 rfl).2.1).2⟩

/-! ## Health -/

/-- C9: decision table of the mariadb `Status` check, for every combination of
collaborator outcomes. The leader status is always read first. If it reports
read-write, the scale check is not invoked and the liveness step decides. If
not, the scale check is invoked right after: its error gives UNHEALTHY with that
error, `scaled = false` gives a healthy reply with no error and neither a
connection nor a statement, and `scaled = true` hands over to the liveness step.
The reply is UNHEALTHY exactly when the error is not nil. -/
theorem mariadb_status_decision_table (leader : Except Error LeaderStatus)
    (checkScale : Bool × Option Error) (connect : Option Error) (exec : Stmt → Option Error) :
    (reportsReadWrite leader →
      StatusEvent.checkScale ∉ (mariadb.API.Status leader checkScale connect exec).events ∧
      specLiveness connect exec (mariadb.API.Status leader checkScale connect exec)) ∧
    (¬ reportsReadWrite leader →
      StatusEvent.checkScale ∈ (mariadb.API.Status leader checkScale connect exec).events ∧
      (∀ e, checkScale.2 = some e →
        (mariadb.API.Status leader checkScale connect exec).reply.Status = .UNHEALTHY ∧
        (mariadb.API.Status leader checkScale connect exec).err = some e ∧
        (mariadb.API.Status leader checkScale connect exec).events
          = [.leaderStatus, .checkScale]) ∧
      (checkScale = (false, none) →
        (mariadb.API.Status leader checkScale connect exec).reply.Status = .HEALTHY ∧
        (mariadb.API.Status leader checkScale connect exec).err = none ∧
        (mariadb.API.Status leader checkScale connect exec).events
          = [.leaderStatus, .checkScale]) ∧
      (checkScale = (true, none) →
        specLiveness connect exec (mariadb.API.Status leader checkScale connect exec))) ∧
    ((mariadb.API.Status leader checkScale connect exec).reply.Status = .UNHEALTHY ↔
      (mariadb.API.Status leader checkScale connect exec).err ≠ none) := by
  have hrw : reportsReadWrite leader ↔
      (match leader with
        | .ok ss => (match ss.Database with
          | some d => d.ReadWrite
          | none => false)
        | .error _ => false) = true := by
    unfold reportsReadWrite
    rcases leader with e | ⟨⟨_ | ⟨⟨_ | _⟩⟩⟩⟩ <;> simp
  rcases checkScale with ⟨scaled, _ | ce⟩ <;> cases scaled <;>
    rcases connect with _ | ke <;> cases hx : exec ⟨"SELECT 1", []⟩ <;>
    by_cases hl : reportsReadWrite leader <;>
    (have hl' := hl; rw [hrw] at hl';
     simp [mariadb.API.Status, specLiveness, hl, hl', hx])


/-- Witness of C9: a leader that reports read-write, a reachable store and a
scale check that would fail: the scale check is not invoked and the liveness
step decides. -/
theorem mariadb_status_decision_table_witness :
    StatusEvent.checkScale ∉ (mariadb.API.Status (.ok ⟨some ⟨true⟩⟩)
      (false, some (Error.external "controller down")) none (fun _ => none)).events ∧
    specLiveness none (fun _ => none) (mariadb.API.Status (.ok ⟨some ⟨true⟩⟩)
      (false, some (Error.external "controller down")) none (fun _ => none)) :=
  (mariadb_status_decision_table (.ok ⟨some ⟨true⟩⟩)
    (false, some (Error.external "controller down")) none (fun _ => none)).1
    ⟨⟨some ⟨true⟩⟩, ⟨true⟩, rfl, rfl, rfl⟩


/-! ## The tunables writers of the command line client -/

theorem GoMap_get_delete {V : Type} (m : cli.GoMap V) (k x : String) :
    cli.GoMap.get (cli.GoMap.delete m k) x = if x = k then none else cli.GoMap.get m x := by
  induction m with
  | nil => simp [cli.GoMap.delete, cli.GoMap.get]
  | cons e rest ih =>
    obtain ⟨k', v⟩ := e
    unfold cli.GoMap.delete at ih ⊢
    by_cases hk : k' = k
    · subst hk
      by_cases hx : x = k'
      · simpa [cli.GoMap.get, hx] using ih
      · have hx' : ¬ k' = x := fun h => hx h.symm
        simpa [cli.GoMap.get, hx, hx'] using ih
    · by_cases hx : x = k
      · subst hx
        simpa [cli.GoMap.get, hk] using ih
      · by_cases hkx : k' = x
        · simp [cli.GoMap.get, hk, hkx, hx]
        · simpa [cli.GoMap.get, hk, hkx, hx] using ih

theorem GoMap_get_set {V : Type} (m : cli.GoMap V) (k x : String) (v : V) :
    cli.GoMap.get (cli.GoMap.set m k v) x = if x = k then some v else cli.GoMap.get m x := by
  unfold cli.GoMap.set
  by_cases hx : x = k
  · simp [cli.GoMap.get, hx]
  · have hx' : ¬ k = x := fun h => hx h.symm
    simp [cli.GoMap.get, hx, hx', GoMap_get_delete]

theorem GoMap_get_eq_none_iff {V : Type} (m : cli.GoMap V) (x : String) :
    cli.GoMap.get m x = none ↔ x ∉ m.map Prod.fst := by
  induction m with
  | nil => simp [cli.GoMap.get]
  | cons e rest ih =>
    obtain ⟨k', v⟩ := e
    by_cases hk : k' = x
    · simp [cli.GoMap.get, hk]
    · have hk' : ¬ x = k' := fun h => hk h.symm
      simp [cli.GoMap.get, hk, hk', ih]

theorem GoMap_get_eq_some_iff {V : Type} (m : cli.GoMap V) (x : String) (w : V)
    (hnd : (m.map Prod.fst).Nodup) :
    cli.GoMap.get m x = some w ↔ (x, w) ∈ m := by
  induction m with
  | nil => simp [cli.GoMap.get]
  | cons e rest ih =>
    obtain ⟨k', v⟩ := e
    simp only [List.map_cons, List.nodup_cons] at hnd
    by_cases hk : k' = x
    · subst hk
      have hnot : ∀ w', (k', w') ∉ rest := fun w' hm =>
        hnd.1 (List.mem_map.mpr ⟨(k', w'), hm, rfl⟩)
      simp only [cli.GoMap.get, if_true, Option.some.injEq, List.mem_cons, Prod.mk.injEq,
        true_and]
      constructor
      · intro h; exact Or.inl h.symm
      · rintro (h | h)
        · exact h.symm
        · exact absurd h (hnot w)
    · have hk' : ¬ x = k' := fun h => hk h.symm
      simp [cli.GoMap.get, hk, hk', ih hnd.2]

theorem GoMap_get_perm {V : Type} {l l' : cli.GoMap V} (hp : l'.Perm l)
    (hnd : (l.map Prod.fst).Nodup) (x : String) :
    cli.GoMap.get l' x = cli.GoMap.get l x := by
  have hnd' : (l'.map Prod.fst).Nodup := (hp.map Prod.fst).nodup_iff.mpr hnd
  cases h : cli.GoMap.get l x with
  | none =>
    rw [GoMap_get_eq_none_iff] at h ⊢
    intro hm
    exact h ((hp.map Prod.fst).mem_iff.mp hm)
  | some w =>
    rw [GoMap_get_eq_some_iff _ _ _ hnd] at h
    rw [GoMap_get_eq_some_iff _ _ _ hnd']
    exact hp.mem_iff.mpr h

theorem GoMap_set_nodup {V : Type} (m : cli.GoMap V) (k : String) (v : V)
    (hnd : (m.map Prod.fst).Nodup) : ((cli.GoMap.set m k v).map Prod.fst).Nodup := by
  unfold cli.GoMap.set cli.GoMap.delete
  simp only [List.map_cons, List.nodup_cons]
  refine ⟨?_, hnd.sublist ((List.filter_sublist m).map Prod.fst)⟩
  intro hm
  obtain ⟨e, he, hek⟩ := List.mem_map.mp hm
  have := (List.mem_filter.mp he).2
  simp only [decide_eq_true_eq] at this
  exact this hek

/-- The second loop of `runResourceTunablesSet` on an allocated map: it ends
without panic, each key of `newTunables` gets its new value (or is deleted for
a nil pointer), every other key keeps its value. -/
theorem applyTunables_get (l : List (String × Option String))
    (hnd : (l.map Prod.fst).Nodup) (m : cli.GoMap String) :
    ∃ m', cli.applyTunables (some m) l = .ok (some m') ∧
      ∀ x, cli.GoMap.get m' x =
        match cli.GoMap.get l x with
        | some w => w
        | none => cli.GoMap.get m x := by
  induction l generalizing m with
  | nil => exact ⟨m, rfl, fun x => by simp [cli.GoMap.get]⟩
  | cons e rest ih =>
    obtain ⟨k, w⟩ := e
    simp only [List.map_cons, List.nodup_cons] at hnd
    have hnone : cli.GoMap.get rest k = none := (GoMap_get_eq_none_iff rest k).mpr hnd.1
    cases w with
    | none =>
      obtain ⟨m', hm', hget⟩ := ih hnd.2 (cli.GoMap.delete m k)
      refine ⟨m', by simpa [cli.applyTunables] using hm', fun x => ?_⟩
      rw [hget x, GoMap_get_delete]
      by_cases hk : k = x
      · subst hk
        simp [hnone, cli.GoMap.get]
      · have hk' : ¬ x = k := fun h => hk h.symm
        simp [cli.GoMap.get, hk, hk']
    | some v =>
      obtain ⟨m', hm', hget⟩ := ih hnd.2 (cli.GoMap.set m k v)
      refine ⟨m', by simpa [cli.applyTunables] using hm', fun x => ?_⟩
      rw [hget x, GoMap_get_set]
      by_cases hk : k = x
      · subst hk
        simp [hnone, cli.GoMap.get]
      · have hk' : ¬ x = k := fun h => hk h.symm
        simp [cli.GoMap.get, hk, hk']

/-- The second loop of `runResourceTunablesSet` on a nil map: with at least one
entry, all of them non-nil pointers, it panics. -/
theorem applyTunables_nil (l : List (String × Option String)) (hl : l ≠ [])
    (hsome : ∀ e ∈ l, e.2 ≠ none) :
    cli.applyTunables none l = .error "assignment to entry in nil map" := by
  cases l with
  | nil => exact absurd rfl hl
  | cons e rest =>
    obtain ⟨k, w⟩ := e
    cases w with
    | none => exact absurd rfl (hsome (k, none) (List.mem_cons_self _ _))
    | some v => rfl

theorem Index_takeWhile {s : List Char} {sep : Char} {m : Nat} (h : Index s sep = some m) :
    s.take m = s.takeWhile (fun c => decide (c ≠ sep)) ∧
      s.drop (m + 1) = (s.dropWhile (fun c => decide (c ≠ sep))).drop 1 := by
  induction s generalizing m with
  | nil => simp [Index] at h
  | cons c cs ih =>
    by_cases hc : c = sep
    · simp [Index, hc] at h
      subst h
      simp [hc]
    · simp only [Index, hc, if_false, Option.map_eq_some'] at h
      obtain ⟨k, hk, rfl⟩ := h
      obtain ⟨h1, h2⟩ := ih hk
      simp [List.takeWhile_cons, List.dropWhile_cons, hc, h1, h2]

theorem Index_isSome_of_mem {s : List Char} {sep : Char} (h : sep ∈ s) :
    ∃ m, Index s sep = some m := by
  induction s with
  | nil => simp at h
  | cons c cs ih =>
    by_cases hc : c = sep
    · exact ⟨0, by simp [Index, hc]⟩
    · have hcs : sep ∈ cs := by
        rcases List.mem_cons.mp h with h' | h'
        · exact absurd h'.symm hc
        · exact h'
      obtain ⟨m, hm⟩ := ih hcs
      exact ⟨m + 1, by simp [Index, hc, hm]⟩

/-- A pair that contains "=" is cut by `SplitN` into its key and its value. -/
theorem SplitN_pair (s : String) (h : '=' ∈ s.data) :
    SplitN s '=' 2 = [cli.specKey s, cli.specValue s] := by
  obtain ⟨m, hm⟩ := Index_isSome_of_mem h
  obtain ⟨h1, h2⟩ := Index_takeWhile hm
  unfold SplitN cli.specKey cli.specValue
  simp only [show (2 : Nat) ≠ 0 by decide, if_false, genSplitLoop, hm, List.map_cons,
    List.map_nil, h1, h2]

/-- The first loop of `runResourceTunablesSet` on well-formed pairs: it ends
without error with a map of distinct keys in which a key named by the pairs
holds the value of the last pair that names it and any other key is as it was
in the map the loop started from. -/
theorem parsePairs_ok (pairs : List String) (h : ∀ s ∈ pairs, '=' ∈ s.data)
    (acc : cli.GoMap (Option String)) (hnd : (acc.map Prod.fst).Nodup) :
    ∃ m, cli.parsePairs pairs acc = .ok m ∧ (m.map Prod.fst).Nodup ∧
      ∀ x, cli.GoMap.get m x =
        match cli.specLastValue pairs x with
        | some v => some (some v)
        | none => cli.GoMap.get acc x := by
  induction pairs generalizing acc with
  | nil => exact ⟨acc, rfl, hnd, fun x => rfl⟩
  | cons s rest ih =>
    have hs : '=' ∈ s.data := h s (List.mem_cons_self s rest)
    have hrest : ∀ t ∈ rest, '=' ∈ t.data := fun t ht => h t (List.mem_cons_of_mem s ht)
    obtain ⟨m, hm, hmnd, hget⟩ := ih hrest
      (cli.GoMap.set acc (cli.specKey s) (some (cli.specValue s)))
      (GoMap_set_nodup acc _ _ hnd)
    refine ⟨m, ?_, hmnd, fun x => ?_⟩
    · simp only [cli.parsePairs, SplitN_pair s hs]
      exact hm
    · rw [hget x]
      cases hl : cli.specLastValue rest x with
      | some v => simp [cli.specLastValue, hl]
      | none =>
        by_cases hk : cli.specKey s = x
        · simp [cli.specLastValue, hl, hk, GoMap_get_set]
        · have hk' : ¬ x = cli.specKey s := fun e => hk e.symm
          simp [cli.specLastValue, hl, hk, hk', GoMap_get_set]

theorem foldl_delete_get (vars : List String) (data : cli.GoMap String) (x : String) :
    cli.GoMap.get (vars.foldl cli.GoMap.delete data) x =
      if x ∈ vars then none else cli.GoMap.get data x := by
  induction vars generalizing data with
  | nil => simp
  | cons v rest ih =>
    simp only [List.foldl_cons, ih, GoMap_get_delete, List.mem_cons]
    by_cases h1 : x ∈ rest <;> by_cases h2 : x = v <;> simp [h1, h2]


theorem specLastValue_eq_none (pairs : List String) (x : String)
    (h : ∀ s ∈ pairs, cli.specKey s ≠ x) : cli.specLastValue pairs x = none := by
  induction pairs with
  | nil => rfl
  | cons s rest ih =>
    have h1 : cli.specKey s ≠ x := h s (List.mem_cons_self s rest)
    have h2 := ih (fun t ht => h t (List.mem_cons_of_mem s ht))
    simp [cli.specLastValue, h2, h1]

theorem specLastValue_last (pre post : List String) (s : String)
    (h : ∀ t ∈ post, cli.specKey t ≠ cli.specKey s) :
    cli.specLastValue (pre ++ s :: post) (cli.specKey s) = some (cli.specValue s) := by
  induction pre with
  | nil => simp [cli.specLastValue, specLastValue_eq_none post _ h]
  | cons p pre' ih => simp [cli.specLastValue, ih]

theorem foldl_delete_readData (vars : List String) (data : Option (cli.GoMap String))
    (x : String) :
    cli.readData (vars.foldl (fun d s => d.map (fun m => cli.GoMap.delete m s)) data) x =
      if x ∈ vars then none else cli.readData data x := by
  cases data with
  | none =>
    have hnil : ∀ vs : List String,
        vs.foldl (fun d s => d.map (fun m => cli.GoMap.delete m s))
          (none : Option (cli.GoMap String)) = none := by
      intro vs
      induction vs with
      | nil => rfl
      | cons v rest ih => simpa using ih
    rw [hnil]
    simp [cli.readData]
  | some m =>
    have hsome : ∀ (vs : List String) (m0 : cli.GoMap String),
        vs.foldl (fun d s => d.map (fun m => cli.GoMap.delete m s)) (some m0)
          = some (vs.foldl cli.GoMap.delete m0) := by
      intro vs
      induction vs with
      | nil => intro m0; rfl
      | cons v rest ih => intro m0; simpa using ih (cli.GoMap.delete m0 v)
    rw [hsome]
    simp only [cli.readData]
    exact foldl_delete_get vars m x

/-- The map that the first loop of `runResourceTunablesSet` builds from
well-formed pairs holds no nil pointer, and it is not empty when there is a
pair. -/
theorem parsePairs_values (pairs : List String) (h : ∀ s ∈ pairs, '=' ∈ s.data) :
    ∃ m, cli.parsePairs pairs [] = .ok m ∧ (m.map Prod.fst).Nodup ∧
      (∀ x, cli.GoMap.get m x = (cli.specLastValue pairs x).map some) ∧
      (∀ e ∈ m, e.2 ≠ none) ∧ (pairs ≠ [] → m ≠ []) := by
  obtain ⟨m, hm, hnd, hget⟩ := parsePairs_ok pairs h [] (by simp)
  have hget' : ∀ x, cli.GoMap.get m x = (cli.specLastValue pairs x).map some := by
    intro x
    rw [hget x]
    cases cli.specLastValue pairs x <;> simp [cli.GoMap.get]
  refine ⟨m, hm, hnd, hget', ?_, ?_⟩
  · rintro ⟨k, w⟩ he hw
    have h1 := (GoMap_get_eq_some_iff m k w hnd).mpr he
    rw [hget' k] at h1
    simp only at hw
    subst hw
    cases hl : cli.specLastValue pairs k <;> simp [hl] at h1
  · intro hne hm0
    cases pairs with
    | nil => exact hne rfl
    | cons s rest =>
      have h1 := hget' (cli.specKey s)
      rw [hm0] at h1
      cases hl : cli.specLastValue rest (cli.specKey s) <;>
        simp [cli.GoMap.get, cli.specLastValue, hl] at h1

/-- On a blob whose data map is nil, `runResourceTunablesSet` with at least one
pair, all pairs containing "=", panics at the first write into the map and
submits nothing, whatever order `range` yields the entries in. -/
theorem runResourceTunablesSet_nil_panics (wrap : Int → Int) (version : Int)
    (update : cli.UpdateClient)
    (rangeOrder : List (String × Option String) → List (String × Option String))
    (hrange : ∀ l, (rangeOrder l).Perm l)
    (submitted : List (String × String × cli.ResourceTunables)) (provider resource : String)
    (pairs : List String) (hne : pairs ≠ []) (hpairs : ∀ s ∈ pairs, '=' ∈ s.data) :
    cli.runResourceTunablesSet wrap (.ok ⟨none, version⟩) update rangeOrder submitted provider
        resource pairs
      = ⟨.panicked "assignment to entry in nil map", submitted⟩ := by
  obtain ⟨m, hm, _, _, hsome, hnon⟩ := parsePairs_values pairs hpairs
  have hl : rangeOrder m ≠ [] := by
    intro h0
    have hp := hrange m
    rw [h0] at hp
    exact hnon hne hp.nil_eq.symm
  have hs : ∀ e ∈ rangeOrder m, e.2 ≠ none := fun e he =>
    hsome e ((hrange m).mem_iff.mp he)
  simp [cli.runResourceTunablesSet, hm, applyTunables_nil _ hl hs]

/-- What the tunables writers do when nothing goes wrong, whatever order `range`
yields the entries of a map in. On a blob whose data map is allocated and whose
version can be incremented without wrap-around, `runResourceTunablesSet` with
pairs that all contain "=" submits exactly one update; its version is the
fetched version plus one; in its data the key of a pair maps to the value of
the last pair with that key, a key named by no pair is as fetched, and no
fetched key is missing. On a blob whose version can be incremented without
wrap-around, `runResourceTunablesUnset` submits exactly one update; its version
is the fetched version plus one; in its data every named key is absent and
every other key is as fetched. Both return the controller's answer to the
update. -/
theorem tunables_read_modify_write (wrap : Int → Int) (version : Int)
    (hwrap : wrap (version + 1) = version + 1) (update : cli.UpdateClient)
    (rangeOrder : List (String × Option String) → List (String × Option String))
    (hrange : ∀ l, (rangeOrder l).Perm l)
    (submitted : List (String × String × cli.ResourceTunables)) (provider resource : String) :
    (∀ (fetched : cli.GoMap String) (pairs : List String), (∀ s ∈ pairs, '=' ∈ s.data) →
      ∃ data : cli.GoMap String,
        cli.runResourceTunablesSet wrap (.ok ⟨some fetched, version⟩) update rangeOrder
            submitted provider resource pairs
          = ⟨.returned (update submitted provider resource ⟨some data, version + 1⟩),
              submitted ++ [(provider, resource, ⟨some data, version + 1⟩)]⟩ ∧
        (∀ pre s post, pairs = pre ++ s :: post →
          (∀ t ∈ post, cli.specKey t ≠ cli.specKey s) →
          cli.GoMap.get data (cli.specKey s) = some (cli.specValue s)) ∧
        (∀ x, (∀ s ∈ pairs, cli.specKey s ≠ x) →
          cli.GoMap.get data x = cli.GoMap.get fetched x) ∧
        (∀ x, cli.GoMap.get fetched x ≠ none → cli.GoMap.get data x ≠ none)) ∧
    (∀ (fetched : Option (cli.GoMap String)) (vars : List String),
      ∃ data : Option (cli.GoMap String),
        cli.runResourceTunablesUnset wrap (.ok ⟨fetched, version⟩) update submitted provider
            resource vars
          = ⟨.returned (update submitted provider resource ⟨data, version + 1⟩),
              submitted ++ [(provider, resource, ⟨data, version + 1⟩)]⟩ ∧
        (∀ x ∈ vars, cli.readData data x = none) ∧
        (∀ x, x ∉ vars → cli.readData data x = cli.readData fetched x)) := by
  refine ⟨fun fetched pairs hpairs => ?_, fun fetched vars => ?_⟩
  · obtain ⟨m, hm, hmnd, hget, _, _⟩ := parsePairs_values pairs hpairs
    obtain ⟨data, hdata, hdget⟩ :=
      applyTunables_get (rangeOrder m) ((((hrange m).map Prod.fst).nodup_iff).mpr hmnd) fetched
    have hd : ∀ x, cli.GoMap.get data x =
        match cli.specLastValue pairs x with
        | some v => some v
        | none => cli.GoMap.get fetched x := by
      intro x
      rw [hdget x, GoMap_get_perm (hrange m) hmnd, hget x]
      cases cli.specLastValue pairs x <;> simp
    refine ⟨data, ?_, ?_, ?_, ?_⟩
    · simp [cli.runResourceTunablesSet, hm, hdata, hwrap]
    · intro pre s post hp hpost
      rw [hd, hp, specLastValue_last pre post s hpost]
    · intro x hx
      rw [hd, specLastValue_eq_none pairs x hx]
    · intro x hx
      rw [hd]
      cases cli.specLastValue pairs x with
      | none => exact hx
      | some v => exact Option.some_ne_none v
  · refine ⟨vars.foldl (fun d s => d.map (fun m => cli.GoMap.delete m s)) fetched, ?_, ?_, ?_⟩
    · simp [cli.runResourceTunablesUnset, hwrap]
    · intro x hx
      rw [foldl_delete_readData, if_pos hx]
    · intro x hx
      rw [foldl_delete_readData, if_neg hx]

/-- C10, the code at the failing input: the fetched blob has a nil data map and
version 3, and the one pair is "a=1". The write `tunables.Data[k] = *v` panics
with "assignment to entry in nil map": the version is not bumped and no update
is submitted, where the claim expects one update with data `{a: 1}` and version
4. On the blob with an allocated empty map and the same version the same call
submits exactly that update. -/
theorem runResourceTunablesSet_panics_on_nil_map (wrap : Int → Int) :
    cli.runResourceTunablesSet wrap (.ok ⟨none, 3⟩) (fun _ _ _ _ => none) id []
        "mariadb" "res1" ["a=1"]
      = ⟨.panicked "assignment to entry in nil map", []⟩ ∧
    cli.runResourceTunablesSet wrap (.ok ⟨some [], 3⟩) (fun _ _ _ _ => none) id []
        "mariadb" "res1" ["a=1"]
      = ⟨.returned none, [("mariadb", "res1", ⟨some [("a", "1")], wrap 4⟩)]⟩ := by
  have hsplit : SplitN "a=1" '=' 2 = ["a", "1"] := by decide
  constructor
  · simp [cli.runResourceTunablesSet, cli.parsePairs, hsplit, cli.GoMap.set, cli.GoMap.delete,
      cli.applyTunables]
  · simp [cli.runResourceTunablesSet, cli.parsePairs, hsplit, cli.GoMap.set, cli.GoMap.delete,
      cli.applyTunables]

/-! ## `runResourceRemove`: the keys handed to `setEnv` -/

/-- The loop of `runResourceRemove`: a key yielded by `range` whose release
value, read with "" for a missing key, equals its resource value, read the same
way, is mapped to nil; every other key is as it was in the map the loop started
from. -/
theorem unsetLoop_get (resEnv releaseEnv : cli.GoMap String) (l : List (String × String))
    (env : cli.GoMap (Option String)) (x : String) :
    cli.GoMap.get (cli.unsetLoop resEnv releaseEnv l env) x =
      if x ∈ l.map Prod.fst ∧ cli.GoMap.index releaseEnv x = cli.GoMap.index resEnv x
      then some none else cli.GoMap.get env x := by
  induction l generalizing env with
  | nil => simp [cli.unsetLoop]
  | cons e rest ih =>
    obtain ⟨k, v⟩ := e
    have hmem : x ∈ ((k, v) :: rest).map Prod.fst ↔ x = k ∨ x ∈ rest.map Prod.fst := by simp
    by_cases hc : cli.GoMap.index releaseEnv k = cli.GoMap.index resEnv k
    · have hstep : cli.unsetLoop resEnv releaseEnv ((k, v) :: rest) env
          = cli.unsetLoop resEnv releaseEnv rest (cli.GoMap.set env k none) := by
        simp [cli.unsetLoop, hc]
      rw [hstep, ih, GoMap_get_set]
      by_cases hx : x = k
      · have hcx : cli.GoMap.index releaseEnv x = cli.GoMap.index resEnv x := by rw [hx]; exact hc
        by_cases h1 : x ∈ rest.map Prod.fst ∧
            cli.GoMap.index releaseEnv x = cli.GoMap.index resEnv x
        · rw [if_pos h1, if_pos ⟨hmem.mpr (Or.inl hx), hcx⟩]
        · rw [if_neg h1, if_pos hx, if_pos ⟨hmem.mpr (Or.inl hx), hcx⟩]
      · rw [if_neg hx]
        by_cases h1 : x ∈ rest.map Prod.fst ∧
            cli.GoMap.index releaseEnv x = cli.GoMap.index resEnv x
        · rw [if_pos h1, if_pos ⟨hmem.mpr (Or.inr h1.1), h1.2⟩]
        · have h2 : ¬ (x ∈ ((k, v) :: rest).map Prod.fst ∧
              cli.GoMap.index releaseEnv x = cli.GoMap.index resEnv x) := by
            rintro ⟨hm, hcx⟩
            rcases hmem.mp hm with h | h
            · exact hx h
            · exact h1 ⟨h, hcx⟩
          rw [if_neg h1, if_neg h2]
    · have hstep : cli.unsetLoop resEnv releaseEnv ((k, v) :: rest) env
          = cli.unsetLoop resEnv releaseEnv rest env := by
        simp [cli.unsetLoop, hc]
      rw [hstep, ih]
      by_cases h1 : x ∈ rest.map Prod.fst ∧
          cli.GoMap.index releaseEnv x = cli.GoMap.index resEnv x
      · rw [if_pos h1, if_pos ⟨hmem.mpr (Or.inr h1.1), h1.2⟩]
      · have h2 : ¬ (x ∈ ((k, v) :: rest).map Prod.fst ∧
            cli.GoMap.index releaseEnv x = cli.GoMap.index resEnv x) := by
          rintro ⟨hm, hcx⟩
          rcases hmem.mp hm with h | h
          · rw [h] at hcx
            exact hc hcx
          · exact h1 ⟨h, hcx⟩
        rw [if_neg h1, if_neg h2]

/-- What `runResourceRemove` hands to `setEnv` once the resource is deleted and
the release fetched, whatever order `range` yields the keys in: one map, in
which exactly the keys of the resource env whose release value, read with ""
for a missing key, equals the resource value are mapped to nil. A key that the
release holds with the resource's value is in it, a key that the release holds
with another value is not, and no key outside the resource env is. -/
theorem runResourceRemove_env (res : cli.Resource) (release : cli.Release)
    (setEnv : cli.GoMap (Option String) → Except Error String)
    (rangeOrder : List (String × String) → List (String × String))
    (hrange : ∀ l, (rangeOrder l).Perm l) :
    ∃ env, (cli.runResourceRemove (.ok res) (.ok release) setEnv rangeOrder).setEnvCalls = [env] ∧
      (∀ x, cli.GoMap.get env x =
        if cli.GoMap.get res.Env x ≠ none ∧
            cli.GoMap.index release.Env x = cli.GoMap.index res.Env x
        then some none else none) ∧
      (∀ x, cli.specUnmodified res.Env release.Env x → cli.GoMap.get env x = some none) ∧
      (∀ x v w, cli.GoMap.get res.Env x = some v → cli.GoMap.get release.Env x = some w →
        v ≠ w → cli.GoMap.get env x = none) ∧
      (∀ x, cli.GoMap.get res.Env x = none → cli.GoMap.get env x = none) := by
  have hget : ∀ x, cli.GoMap.get
      (cli.unsetLoop res.Env release.Env (rangeOrder res.Env) []) x =
        if cli.GoMap.get res.Env x ≠ none ∧
            cli.GoMap.index release.Env x = cli.GoMap.index res.Env x
        then some none else none := by
    intro x
    rw [unsetLoop_get]
    have hmem : x ∈ (rangeOrder res.Env).map Prod.fst ↔ cli.GoMap.get res.Env x ≠ none := by
      rw [Ne, GoMap_get_eq_none_iff, not_not]
      exact ((hrange res.Env).map Prod.fst).mem_iff
    simp only [hmem, cli.GoMap.get]
  refine ⟨cli.unsetLoop res.Env release.Env (rangeOrder res.Env) [], ?_, hget, ?_, ?_, ?_⟩
  · cases h : setEnv (cli.unsetLoop res.Env release.Env (rangeOrder res.Env) []) <;>
      simp [cli.runResourceRemove, h]
  · rintro x ⟨v, h1, h2⟩
    rw [hget]
    simp [cli.GoMap.index, h1, h2]
  · intro x v w h1 h2 hvw
    rw [hget]
    have : ¬ w = v := fun h => hvw h.symm
    simp [cli.GoMap.index, h1, h2, this]
  · intro x h1
    rw [hget]
    simp [h1]

/-- C12, the code at the failing input: the deleted resource env is `{K: ""}` and
the release env is empty. The release does not hold `K`, so `K` is not among the
keys that the claim expects to be unset, yet the map handed to `setEnv` maps `K`
to nil: the read `release.Env[k]` of the missing key gives "", which equals the
resource value. -/
theorem runResourceRemove_unsets_missing_key :
    cli.GoMap.get (V := String) [] "K" = none ∧
    ¬ cli.specUnmodified [("K", "")] [] "K" ∧
    cli.runResourceRemove (.ok ⟨"res1", [("K", "")]⟩) (.ok ⟨[]⟩) (fun _ => .ok "rel2") id
      = ⟨none, [[("K", none)]]⟩ := by
  refine ⟨rfl, ?_, by decide⟩
  rintro ⟨v, _, h⟩
  simp [cli.GoMap.get] at h


end Flynn
